import Mathlib

/-!
Verification of the Scholarly Reader document-conversion engine.

The JavaScript sources (arxiv-pipeline.js, tex2html.js, tools/render-math.js,
tools/resolve-refs.js, tools/extract-figures.js) are shallowly embedded below.
Text is modelled as `List Char`; the JavaScript regular-expression passes are
modelled by explicit scanners that reproduce the leftmost-match / lazy-quantifier
behaviour of the regexes actually used by the code.  External effects
(filesystem probes, the KaTeX typesetting collaborator, PDF/EPS converters)
are passed in as explicit function parameters.
-/

set_option maxRecDepth 20000

/-- Program text is a list of characters. -/
abbrev Str := List Char

/-- Convert a Lean string literal to the character-list representation. -/
def lit (s : String) : Str := s.toList

/-- `hasPfx pat t` holds when `pat` is a prefix of `t`. -/
def hasPfx : Str → Str → Bool
  | [], _ => true
  | _ :: _, [] => false
  | a :: as, b :: bs => a = b && hasPfx as bs

/-- `isSubstrL pat t`: `pat` occurs contiguously somewhere in `t`. -/
def isSubstrL (pat : Str) : Str → Bool
  | [] => hasPfx pat []
  | c :: cs => hasPfx pat (c :: cs) || isSubstrL pat cs

/-- JavaScript whitespace characters occurring in the texts we model. -/
def isWs (c : Char) : Bool := c = ' ' || c = '\n' || c = '\t' || c = '\r'

/-- `String.prototype.trim`. -/
def trimWs (t : Str) : Str := ((t.dropWhile isWs).reverse.dropWhile isWs).reverse

/-- The regex character class `[a-zA-Z]`. -/
def isAsciiAlpha (c : Char) : Bool :=
  ('a' ≤ c && c ≤ 'z') || ('A' ≤ c && c ≤ 'Z')

/-- The regex character class `[0-9]`. -/
def isDigitC (c : Char) : Bool := '0' ≤ c && c ≤ '9'

/-- The citation-key character class `[A-Za-z0-9_:.-]` of arxiv-pipeline.js. -/
def isCiteKeyChar (c : Char) : Bool :=
  isAsciiAlpha c || isDigitC c || c = '_' || c = ':' || c = '.' || c = '-'

/-- Global replacement of a literal token, as done by
`String.prototype.replace` with a global regex consisting of that literal.
Fuel-driven; callers use `replaceAllTok`, which supplies enough fuel. -/
def replaceAllTokF (tok rep : Str) : Nat → Str → Str
  | _, [] => []
  | 0, t => t
  | fuel + 1, c :: cs =>
    if hasPfx tok (c :: cs) then
      rep ++ replaceAllTokF tok rep fuel (List.drop (tok.length - 1) cs)
    else
      c :: replaceAllTokF tok rep fuel cs

/-- Global literal-token replacement. -/
def replaceAllTok (tok rep t : Str) : Str := replaceAllTokF tok rep t.length t

/-- A segment produced by scanning for a `\cmd{key}`-shaped regex:
either plain text or one captured key. -/
inductive Seg where
  | plain (s : Str)
  | key (k : Str)
deriving DecidableEq

/-- Capture `([^}]+)\}`: longest run of non-`\x7d` characters, which must be
nonempty and must be followed by a closing brace.  Returns the capture and
the text after the closing brace. -/
def grabKey (t : Str) : Option (Str × Str) :=
  let k := t.takeWhile (fun c => c ≠ '}')
  match t.dropWhile (fun c => c ≠ '}') with
  | '}' :: rest => if k = [] then none else some (k, rest)
  | _ => none

/-- Like `grabKey` but for `([^}]*)\}`: the capture may be empty. -/
def grabKey0 (t : Str) : Option (Str × Str) :=
  let k := t.takeWhile (fun c => c ≠ '}')
  match t.dropWhile (fun c => c ≠ '}') with
  | '}' :: rest => some (k, rest)
  | _ => none

/-- Prepend one character onto a segment list, merging with a leading
plain segment so plain runs stay contiguous. -/
def consPlain (c : Char) : List Seg → List Seg
  | Seg.plain s :: rest => Seg.plain (c :: s) :: rest
  | segs => Seg.plain [c] :: segs

/-- Scan for the regex `tok([^}]+)\}` (the token already includes the opening
brace), splitting the text into plain segments and captured keys.  A position
where the token matches but no valid capture-plus-close follows is treated as
plain text and the scan advances one character, exactly as the JavaScript
regex engine does. -/
def parseKeyCmdF (tok : Str) : Nat → Str → List Seg
  | _, [] => []
  | 0, t => [Seg.plain t]
  | fuel + 1, c :: cs =>
    if hasPfx tok (c :: cs) then
      match grabKey (List.drop (tok.length - 1) cs) with
      | some (k, rest) => Seg.key k :: parseKeyCmdF tok fuel rest
      | none => consPlain c (parseKeyCmdF tok fuel cs)
    else
      consPlain c (parseKeyCmdF tok fuel cs)

/-- Render a segment list back to text, mapping each captured key through `f`. -/
def renderSegs (f : Str → Str) : List Seg → Str
  | [] => []
  | Seg.plain s :: rest => s ++ renderSegs f rest
  | Seg.key k :: rest => f k ++ renderSegs f rest

/-- `text.replace(/tok([^}]+)\}/g, (m, key) => f key)`. -/
def replaceKeyCmd (tok : Str) (f : Str → Str) (t : Str) : Str :=
  renderSegs f (parseKeyCmdF tok t.length t)

/-- Split at the first occurrence of a literal token: text before and text
after the token, or `none` when the token does not occur. -/
def splitAtFirst (tok : Str) : Str → Option (Str × Str)
  | [] => none
  | c :: cs =>
    if hasPfx tok (c :: cs) then some ([], List.drop (tok.length - 1) cs)
    else (splitAtFirst tok cs).map (fun p => (c :: p.1, p.2))

/-- `String.prototype.split` with a literal separator (left-to-right,
non-overlapping). -/
def splitOnTokF (tok : Str) : Nat → Str → List Str
  | 0, t => [t]
  | fuel + 1, t =>
    match splitAtFirst tok t with
    | none => [t]
    | some (pre, post) => pre :: splitOnTokF tok fuel post

/-! ## tex2html.js — macro extraction and application

`applyMacros(tex, macros)` (tex2html.js lines 164–180) iterates once over the
macro table; for each zero-argument macro it performs one global replacement
with the regex `\\name(?![a-zA-Z])`, and afterwards, for each one-argument
macro, one replacement with `\\name\{([^}]*)\}`.  Replacement text is inserted
verbatim (which is faithful to JavaScript whenever the replacement contains no
dollar sign; all theorems below assume that). -/

namespace Tex2Html

/-- One JavaScript macro-table entry: name (without the backslash),
argument count, and replacement body. -/
structure MacroDef where
  name : Str
  args : Nat
  body : Str

/-- The negated lookahead `(?![a-zA-Z])` of the zero-argument macro regex,
as a predicate on the text following the macro name. -/
def noAlphaHead : Str → Bool
  | [] => true
  | d :: _ => !isAsciiAlpha d

/-- One global replacement with `\\name(?![a-zA-Z])`: an occurrence of
backslash-name is replaced only when not immediately followed by an ASCII
letter; the replacement is not rescanned. -/
def replace0F (name body : Str) : Nat → Str → Str
  | _, [] => []
  | 0, t => t
  | fuel + 1, c :: cs =>
    if c = '\\' && hasPfx name cs && noAlphaHead (List.drop name.length cs) then
      body ++ replace0F name body fuel (List.drop name.length cs)
    else
      c :: replace0F name body fuel cs

/-- Zero-argument macro replacement pass for one table entry. -/
def replace0 (name body t : Str) : Str := replace0F name body t.length t

/-- `def.replacement.replace(/#1/g, arg)`. -/
def subst1 (body arg : Str) : Str := replaceAllTok (lit "#1") arg body

/-- One global replacement with `\\name\{([^}]*)\}` for a one-argument macro:
the capture is substituted for `#1` in the body. -/
def replace1F (name body : Str) : Nat → Str → Str
  | _, [] => []
  | 0, t => t
  | fuel + 1, c :: cs =>
    if c = '\\' && hasPfx (name ++ ['{']) cs then
      match grabKey0 (List.drop (name.length + 1) cs) with
      | some (arg, rest) => subst1 body arg ++ replace1F name body fuel rest
      | none => c :: replace1F name body fuel cs
    else
      c :: replace1F name body fuel cs

/-- One-argument macro replacement pass for one table entry. -/
def replace1 (name body t : Str) : Str := replace1F name body t.length t

/-- `applyMacros` (tex2html.js): one pass applying every zero-argument macro
in table order, then one pass applying every one-argument macro in table
order.  There is no re-scan loop and no iteration bound. -/
def applyMacros (tex : Str) (macros : List MacroDef) : Str :=
  let t1 := macros.foldl (fun t m => if m.args = 0 then replace0 m.name m.body t else t) tex
  macros.foldl (fun t m => if m.args = 1 then replace1 m.name m.body t else t) t1

/-- `containsMacroInv0 name t`: `t` still contains an occurrence of
backslash-name not followed by an ASCII letter, i.e. an invocation that the
zero-argument pass would replace. -/
def containsMacroInv0 (name : Str) : Str → Bool
  | [] => false
  | c :: cs =>
    (c = '\\' && hasPfx name cs && noAlphaHead (List.drop name.length cs))
    || containsMacroInv0 name cs

end Tex2Html

/-! ## tools/resolve-refs.js — two-pass cross-reference resolution

`collectLabels(text)` runs five regex scans over the document: the
equation/align/gather environments, figure environments, table environments,
section headings followed by a label, and finally a standalone catch-all for
every remaining `\label`.  The first four scans `set` into the map
unconditionally; only the catch-all checks `labels.has` first.
`resolveRefs(text, labels)` rewrites `\eqref`, `\ref`, `\autoref` and
`\label` in four sequential global replacements. -/

namespace ResolveRefs

/-- A label number: a per-kind ordinal, or the placeholder used for labels of
unknown kind (the JavaScript value is the string of one question mark). -/
inductive LNum where
  | num (n : Nat)
  | unknown
deriving DecidableEq

/-- One value of the label table: construct kind and assigned number. -/
structure LabelEntry where
  kind : Str
  number : LNum
deriving DecidableEq

/-- The label table: a JavaScript `Map` modelled as an insertion-ordered
association list. -/
abbrev LabelMap := List (Str × LabelEntry)

/-- `Map.prototype.get`. -/
def findL (k : Str) : LabelMap → Option LabelEntry
  | [] => none
  | (k2, v) :: rest => if k = k2 then some v else findL k rest

/-- `Map.prototype.set`: replaces the value of an existing key in place,
otherwise appends a new entry. -/
def setL (k : Str) (v : LabelEntry) : LabelMap → LabelMap
  | [] => [(k, v)]
  | (k2, v2) :: rest => if k = k2 then (k, v) :: rest else (k2, v2) :: setL k v rest

/-- The alternation `(equation|align|gather)` (or another name list) followed
by `\*?\}`: try each alternative in order at the current position. -/
def tryNames (names : List Str) (t : Str) : Option (Str × Str) :=
  match names with
  | [] => none
  | n :: ns =>
    if hasPfx n t then
      match List.drop n.length t with
      | '*' :: '}' :: rest => some (n, rest)
      | '}' :: rest => some (n, rest)
      | _ => tryNames ns t
    else tryNames ns t

/-- Match `\begin\{NAME\*?\}` for one of the given environment names at the
current position; returns the matched name and the remaining text. -/
def envBeginAt (names : List Str) : Str → Option (Str × Str)
  | '\\' :: rest =>
    if hasPfx (lit "begin\x7b") rest then tryNames names (List.drop 6 rest)
    else none
  | _ => none

/-- First match of `\label\{([^}]+)\}` anywhere in the text: key and the text
after the closing brace. -/
def findLabelKey : Str → Option (Str × Str)
  | [] => none
  | c :: cs =>
    if hasPfx (lit "\\label\x7b") (c :: cs) then
      match grabKey (List.drop 6 cs) with
      | some (k, rest) => some (k, rest)
      | none => findLabelKey cs
    else findLabelKey cs

/-- First match of `\end\{NAME\*?\}` (for the environment name captured by the
backreference) anywhere in the text: the text after it. -/
def findEnvEnd (env : Str) : Str → Option Str
  | [] => none
  | c :: cs =>
    if c = '\\' && hasPfx (lit "end\x7b" ++ env) cs then
      match List.drop (4 + env.length) cs with
      | '*' :: '}' :: rest => some rest
      | '}' :: rest => some rest
      | _ => findEnvEnd env cs
    else findEnvEnd env cs

/-- One lazy environment-label scan, as performed by the regex
`\begin\{(names)\*?\}[\s\S]*?\label\{([^}]+)\}[\s\S]*?\end\{\1\*?\}` with the
`g` flag: at each position try to open an environment, take the first
following label and the first following end marker, and continue after the
whole match.  Returns the captured keys in match order. -/
def scanEnvLabelsF (names : List Str) : Nat → Str → List Str
  | _, [] => []
  | 0, _ => []
  | fuel + 1, c :: cs =>
    match envBeginAt names (c :: cs) with
    | some (env, rest) =>
      match findLabelKey rest with
      | some (k, rest2) =>
        match findEnvEnd env rest2 with
        | some rest3 => k :: scanEnvLabelsF names fuel rest3
        | none => scanEnvLabelsF names fuel rest
      | none => scanEnvLabelsF names fuel rest
    | none => scanEnvLabelsF names fuel cs

/-- Keys captured by one environment-label scan. -/
def scanEnvLabels (names : List Str) (t : Str) : List Str :=
  scanEnvLabelsF names t.length t

/-- Consume `(?:sub)*section` starting after the backslash. -/
def dropSubsF : Nat → Str → Option Str
  | 0, _ => none
  | fuel + 1, t =>
    if hasPfx (lit "section") t then some (List.drop 7 t)
    else if hasPfx (lit "sub") t then dropSubsF fuel (List.drop 3 t)
    else none

/-- Match `\(?:sub)*section\*?\{[^}]+\}\s*\label\{([^}]+)\}` at the current
position; returns the captured label key and the remaining text. -/
def trySecLabelAt : Str → Option (Str × Str)
  | '\\' :: rest =>
    match dropSubsF rest.length rest with
    | none => none
    | some t1 =>
      let t2 := match t1 with
                | '*' :: '{' :: r => '{' :: r
                | r => r
      match t2 with
      | '{' :: r2 =>
        match grabKey r2 with
        | none => none
        | some (_, t3) =>
          let t4 := t3.dropWhile isWs
          if hasPfx (lit "\\label\x7b") t4 then
            match grabKey (List.drop 7 t4) with
            | some (k, rest2) => some (k, rest2)
            | none => none
          else none
      | _ => none
  | _ => none

/-- Global scan with the section-label regex, returning captured keys. -/
def scanSecLabelsF : Nat → Str → List Str
  | _, [] => []
  | 0, _ => []
  | fuel + 1, c :: cs =>
    match trySecLabelAt (c :: cs) with
    | some (k, rest) => k :: scanSecLabelsF fuel rest
    | none => scanSecLabelsF fuel cs

/-- Keys captured by the section-label scan. -/
def scanSecLabels (t : Str) : List Str := scanSecLabelsF t.length t

/-- Keys of the key segments of a scanned segment list. -/
def segKeys : List Seg → List Str
  | [] => []
  | Seg.plain _ :: rest => segKeys rest
  | Seg.key k :: rest => k :: segKeys rest

/-- Assign ordinals `n+1, n+2, …` of the given kind to a key list in order,
setting each into the map unconditionally (overwriting an existing entry,
exactly as `labels.set` does). -/
def assignSeq (kind : Str) : List Str → Nat → LabelMap → LabelMap
  | [], _, m => m
  | k :: ks, n, m => assignSeq kind ks (n + 1) (setL k ⟨kind, LNum.num (n + 1)⟩ m)

/-- The catch-all step: record the key only when it is not present yet
(`if (!labels.has(key))`). -/
def setIfAbsent (k : Str) (v : LabelEntry) (m : LabelMap) : LabelMap :=
  if (findL k m).isSome then m else setL k v m

/-- The standalone catch-all pass over a key list. -/
def applyStandalone (keys : List Str) (m : LabelMap) : LabelMap :=
  keys.foldl (fun m k => setIfAbsent k ⟨lit "unknown", LNum.unknown⟩ m) m

/-- Pass 1 of `collectLabels`: equation/align/gather environments. -/
def eqPass (t : Str) (m : LabelMap) : LabelMap :=
  assignSeq (lit "equation") (scanEnvLabels [lit "equation", lit "align", lit "gather"] t) 0 m

/-- Pass 2 of `collectLabels`: figure environments. -/
def figPass (t : Str) (m : LabelMap) : LabelMap :=
  assignSeq (lit "figure") (scanEnvLabels [lit "figure"] t) 0 m

/-- Pass 3 of `collectLabels`: table environments. -/
def tabPass (t : Str) (m : LabelMap) : LabelMap :=
  assignSeq (lit "table") (scanEnvLabels [lit "table"] t) 0 m

/-- Pass 4 of `collectLabels`: section headings carrying a label. -/
def secPass (t : Str) (m : LabelMap) : LabelMap :=
  assignSeq (lit "section") (scanSecLabels t) 0 m

/-- Pass 5 of `collectLabels`: standalone catch-all for remaining labels. -/
def standalonePass (t : Str) (m : LabelMap) : LabelMap :=
  applyStandalone (segKeys (parseKeyCmdF (lit "\\label\x7b") t.length t)) m

/-- `collectLabels` (resolve-refs.js lines 15–53). -/
def collectLabels (t : Str) : LabelMap :=
  standalonePass t (secPass t (tabPass t (figPass t (eqPass t []))))

/-- Printed form of a label number (`${label.number}`). -/
def numRepr : LNum → Str
  | LNum.num n => lit (Nat.repr n)
  | LNum.unknown => ['?']

/-- Replacement for `\eqref{key}`. -/
def eqrefRender (labels : LabelMap) (k : Str) : Str :=
  match findL k labels with
  | some l =>
    lit "<a href=\"#" ++ k ++ lit "\" class=\"eq-ref\">(" ++ numRepr l.number ++ lit ")</a>"
  | none => lit "(?)"

/-- The `\ref` prefix table `{ equation: 'Eq.', figure: 'Fig.', table: 'Table',
section: 'Section' }[label.type] || ''`. -/
def refPfxTable (kind : Str) : Str :=
  if kind = lit "equation" then lit "Eq."
  else if kind = lit "figure" then lit "Fig."
  else if kind = lit "table" then lit "Table"
  else if kind = lit "section" then lit "Section"
  else []

/-- The `\autoref` prefix table. -/
def autorefPfxTable (kind : Str) : Str :=
  if kind = lit "equation" then lit "Equation"
  else if kind = lit "figure" then lit "Figure"
  else if kind = lit "table" then lit "Table"
  else if kind = lit "section" then lit "Section"
  else []

/-- Replacement for `\ref{key}`. -/
def refRender (labels : LabelMap) (k : Str) : Str :=
  match findL k labels with
  | some l =>
    lit "<a href=\"#" ++ k ++ lit "\" class=\"cross-ref\">" ++ refPfxTable l.kind
      ++ [' '] ++ numRepr l.number ++ lit "</a>"
  | none => ['?']

/-- Replacement for `\autoref{key}`. -/
def autorefRender (labels : LabelMap) (k : Str) : Str :=
  match findL k labels with
  | some l =>
    lit "<a href=\"#" ++ k ++ lit "\" class=\"cross-ref\">" ++ autorefPfxTable l.kind
      ++ [' '] ++ numRepr l.number ++ lit "</a>"
  | none => ['?']

/-- Replacement for a remaining `\label{key}`: the anchor element. -/
def anchorRender (k : Str) : Str :=
  lit "<span id=\"" ++ k ++ lit "\" class=\"label-anchor\"></span>"

/-- `resolveRefs` (resolve-refs.js lines 58–96): four sequential global
replacements. -/
def resolveRefs (t : Str) (labels : LabelMap) : Str :=
  let r1 := replaceKeyCmd (lit "\\eqref\x7b") (eqrefRender labels) t
  let r2 := replaceKeyCmd (lit "\\ref\x7b") (refRender labels) r1
  let r3 := replaceKeyCmd (lit "\\autoref\x7b") (autorefRender labels) r2
  replaceKeyCmd (lit "\\label\x7b") anchorRender r3

end ResolveRefs

/-! ## arxiv-pipeline.js — structural segmentation and citation badges

`extractSections(body)` (lines 570–590) records every match of
`\section\*?\{([^}]+)\}`; the content of a section runs from the end of its
heading to the start of the next heading (or end of document).  Text before
the first heading belongs to no section, and with no heading at all the
returned list is empty.

The citation-badge conversion (lines 974–987 of `importArxiv`) replaces each
match of `\[([A-Za-z][A-Za-z0-9_:.-]*(?:,\s*[A-Za-z][A-Za-z0-9_:.-]*)*)\]`
by reference badges when at least one comma-separated key has an entry in the
`keyToNum` table, and leaves the group unchanged otherwise. -/

namespace Pipeline

/-- One section produced by the structural segmenter. -/
structure DocSection where
  title : Str
  content : Str
  number : Nat
deriving DecidableEq

/-- Match `\section\*?\{([^}]+)\}` at the current position: returns the
captured title and the text after the heading. -/
def trySecAt : Str → Option (Str × Str)
  | [] => none
  | c :: cs =>
    if c = '\\' && hasPfx (lit "section") cs then
      let t1 := List.drop 7 cs
      let t2 := match t1 with
                | '*' :: '{' :: r => '{' :: r
                | r => r
      match t2 with
      | '{' :: r2 => grabKey r2
      | _ => none
    else none

/-- First match of the section-heading regex: text before the heading, the
captured title, and the text after the heading. -/
def findSec : Str → Option (Str × Str × Str)
  | [] => none
  | c :: cs =>
    match trySecAt (c :: cs) with
    | some (title, rest) => some ([], title, rest)
    | none => (findSec cs).map (fun p => (c :: p.1, p.2.1, p.2.2))

/-- Build sections from the heading just found onwards; the content of each
section is the trimmed text up to the next heading, the last section keeps
the trimmed remainder. -/
def extractSectionsGo : Nat → Str → Str → Nat → List DocSection
  | 0, title, rest, n => [⟨title, trimWs rest, n⟩]
  | fuel + 1, title, rest, n =>
    match findSec rest with
    | none => [⟨title, trimWs rest, n⟩]
    | some (pre, t2, r2) => ⟨title, trimWs pre, n⟩ :: extractSectionsGo fuel t2 r2 (n + 1)

/-- `extractSections` (arxiv-pipeline.js lines 570–590). -/
def extractSections (body : Str) : List DocSection :=
  match findSec body with
  | none => []
  | some (_, title, rest) => extractSectionsGo rest.length title rest 1

/-- One bibliography entry as produced by `extractBibliography`. -/
structure BibEntry where
  key : Str
  authors : Str
  title : Str
  venue : Str
  arxivId : Str
deriving DecidableEq

/-- The `keyToNum` table: `bibliography.forEach((ref, i) => keyToNum[ref.key]
= i + 1)`, so a duplicated key keeps the ordinal of its last occurrence. -/
def keyToNumFrom (k : Str) : List BibEntry → Nat → Option Nat
  | [], _ => none
  | e :: rest, i =>
    match keyToNumFrom k rest (i + 1) with
    | some n => some n
    | none => if e.key = k then some (i + 1) else none

/-- 1-based bibliography ordinal for a citation key, if any. -/
def keyToNum (bib : List BibEntry) (k : Str) : Option Nat := keyToNumFrom k bib 0

/-- `bibliography.find(r => r.key === k)`. -/
def findBib (bib : List BibEntry) (k : Str) : Option BibEntry :=
  bib.find? (fun r => r.key == k)

/-- `escapeHtml` of arxiv-pipeline.js: three sequential global replacements
for ampersand, less-than and greater-than (no quote handling). -/
def escHtmlP (t : Str) : Str :=
  replaceAllTok ['>'] (lit "&gt;")
    (replaceAllTok ['<'] (lit "&lt;")
      (replaceAllTok ['&'] (lit "&amp;") t))

/-- Segments of the citation-badge scan: plain text, or one bracketed group
with its comma-separated keys and its raw matched text. -/
inductive CSeg where
  | plain (s : Str)
  | group (keys : List Str) (raw : Str)
deriving DecidableEq

/-- Prepend one character onto a citation segment list. -/
def consPlainC (c : Char) : List CSeg → List CSeg
  | CSeg.plain s :: rest => CSeg.plain (c :: s) :: rest
  | segs => CSeg.plain [c] :: segs

/-- Parse one citation key `[A-Za-z][A-Za-z0-9_:.-]*` (greedy). -/
def parseCiteKey : Str → Option (Str × Str)
  | [] => none
  | c :: cs =>
    if isAsciiAlpha c then
      some (c :: cs.takeWhile isCiteKeyChar, cs.dropWhile isCiteKeyChar)
    else none

/-- Parse `(?:,\s*KEY)*` greedily; returns the further keys, the exact text
consumed, and the rest. -/
def parseCiteTail : Nat → Str → (List Str × Str × Str)
  | 0, t => ([], [], t)
  | fuel + 1, t =>
    match t with
    | ',' :: r1 =>
      let ws := r1.takeWhile isWs
      let r2 := r1.dropWhile isWs
      match parseCiteKey r2 with
      | some (k, r3) =>
        let p := parseCiteTail fuel r3
        (k :: p.1, (',' :: ws) ++ k ++ p.2.1, p.2.2)
      | none => ([], [], t)
    | _ => ([], [], t)

/-- Try the whole bracketed-group regex at the current position: returns the
key list, the raw matched text (including the brackets) and the rest. -/
def tryCiteGroupAt : Str → Option (List Str × Str × Str)
  | '[' :: r0 =>
    match parseCiteKey r0 with
    | some (k1, r1) =>
      let p := parseCiteTail r1.length r1
      match p.2.2 with
      | ']' :: rest => some (k1 :: p.1, ('[' :: (k1 ++ p.2.1)) ++ [']'], rest)
      | _ => none
    | none => none
  | _ => none

/-- Scan the text for bracketed citation groups. -/
def parseCiteSegsF : Nat → Str → List CSeg
  | _, [] => []
  | 0, t => [CSeg.plain t]
  | fuel + 1, c :: cs =>
    match tryCiteGroupAt (c :: cs) with
    | some (keys, raw, rest) => CSeg.group keys raw :: parseCiteSegsF fuel rest
    | none => consPlainC c (parseCiteSegsF fuel cs)

/-- The badge emitted for one key of a fired group (`ref-badge` markup). -/
def badgeFor (bib : List BibEntry) (k : Str) : Str :=
  let numStr := match keyToNum bib k with
                | some n => lit (Nat.repr n)
                | none => k
  let title := match findBib bib k with
               | some r => r.title
               | none => k
  let arxivAttr := match findBib bib k with
                   | some r =>
                     if r.arxivId ≠ [] then lit " data-arxiv-id=\"" ++ r.arxivId ++ ['"']
                     else []
                   | none => []
  lit "<sup class=\"ref-badge\" data-ref=\"" ++ numStr ++ lit "\" data-title=\""
    ++ escHtmlP title ++ ['"'] ++ arxivAttr ++ ['>'] ++ numStr ++ lit "</sup>"

/-- Render the citation segments: a group is converted to badges exactly when
some key has a `keyToNum` entry, and kept as its raw text otherwise. -/
def renderCSegs (bib : List BibEntry) : List CSeg → Str
  | [] => []
  | CSeg.plain s :: rest => s ++ renderCSegs bib rest
  | CSeg.group keys raw :: rest =>
    (if keys.any (fun k => (keyToNum bib k).isSome) then
      (keys.map (badgeFor bib)).flatten
    else raw) ++ renderCSegs bib rest

/-- The citation-to-badge conversion of `importArxiv`
(arxiv-pipeline.js lines 974–987). -/
def convertCitationBrackets (bib : List BibEntry) (t : Str) : Str :=
  renderCSegs bib (parseCiteSegsF t.length t)

end Pipeline

/-! ## tools/extract-figures.js — figure extraction and replacement

`extractFigures(texContent, texBaseDir, outputDir)` scans for
`\begin\{figure\*?\}[\s\S]*?\end\{figure\*?\}` blocks, extracts caption,
label, image paths and width hint, resolves each image path against a fixed
extension list and converts or copies it; a path that resolves to nothing is
skipped, so the figure keeps an empty image list.  The filesystem probe and
the PDF/EPS converter chains are abstracted as the `FsOps` record.

`replaceFiguresInText(text, figures)` replaces the k-th figure environment of
the call's text with HTML built from the k-th element of `figures`, or with
the empty string when that element is absent or has no images. -/

namespace ExtractFigures

/-- One extracted figure. -/
structure Figure where
  id : Nat
  label : Str
  caption : Str
  images : List Str
  width : Option Str
deriving DecidableEq

/-- External effects used by the extractor: filesystem existence probe and
the success of the PDF and EPS conversion chains. -/
structure FsOps where
  fsExists : Str → Bool
  pdfOk : Str → Bool
  epsOk : Str → Bool

/-- `escapeHtml` of extract-figures.js: four sequential global replacements
(ampersand, less-than, greater-than, double quote). -/
def escapeHtml (t : Str) : Str :=
  replaceAllTok ['"'] (lit "&quot;")
    (replaceAllTok ['>'] (lit "&gt;")
      (replaceAllTok ['<'] (lit "&lt;")
        (replaceAllTok ['&'] (lit "&amp;") t)))

/-- Segments of the figure-environment scan. -/
inductive FSeg where
  | plain (s : Str)
  | block (b : Str)
deriving DecidableEq

/-- Prepend one character onto a figure segment list. -/
def consPlainF (c : Char) : List FSeg → List FSeg
  | FSeg.plain s :: rest => FSeg.plain (c :: s) :: rest
  | segs => FSeg.plain [c] :: segs

/-- Match `\begin\{figure\*?\}` at the current position. -/
def tryFigBeginAt : Str → Option Str
  | [] => none
  | c :: cs =>
    if c = '\\' && hasPfx (lit "begin\x7bfigure") cs then
      match List.drop 12 cs with
      | '*' :: '}' :: rest => some rest
      | '}' :: rest => some rest
      | _ => none
    else none

/-- First match of `\end\{figure\*?\}`: the content before it and the text
after it. -/
def findFigEnd : Str → Option (Str × Str)
  | [] => none
  | c :: cs =>
    if c = '\\' && hasPfx (lit "end\x7bfigure") cs then
      match List.drop 10 cs with
      | '*' :: '}' :: rest => some ([], rest)
      | '}' :: rest => some ([], rest)
      | _ => (findFigEnd cs).map (fun p => (c :: p.1, p.2))
    else (findFigEnd cs).map (fun p => (c :: p.1, p.2))

/-- Scan a text into plain segments and figure-environment blocks, with the
lazy leftmost-match behaviour of the figure regex. -/
def parseFigSegsF : Nat → Str → List FSeg
  | _, [] => []
  | 0, t => [FSeg.plain t]
  | fuel + 1, c :: cs =>
    match tryFigBeginAt (c :: cs) with
    | some rest =>
      match findFigEnd rest with
      | some (content, rest2) => FSeg.block content :: parseFigSegsF fuel rest2
      | none => consPlainF c (parseFigSegsF fuel cs)
    | none => consPlainF c (parseFigSegsF fuel cs)

/-- The figure-environment blocks of a text, in document order. -/
def blocksOf (t : Str) : List Str :=
  (parseFigSegsF t.length t).filterMap
    (fun s => match s with | FSeg.block b => some b | _ => none)

/-- First match of `\caption\{([\s\S]*?)\}`: the (possibly empty) capture. -/
def findCaptionIn : Str → Option Str
  | [] => none
  | c :: cs =>
    if c = '\\' && hasPfx (lit "caption\x7b") cs then
      match grabKey0 (List.drop 8 cs) with
      | some (cap, _) => some cap
      | none => findCaptionIn cs
    else findCaptionIn cs

/-- Variant of the keyed-command scan for a `([^}]*)` capture (which may be
empty). -/
def parseKeyCmd0F (tok : Str) : Nat → Str → List Seg
  | _, [] => []
  | 0, t => [Seg.plain t]
  | fuel + 1, c :: cs =>
    if hasPfx tok (c :: cs) then
      match grabKey0 (List.drop (tok.length - 1) cs) with
      | some (k, rest) => Seg.key k :: parseKeyCmd0F tok fuel rest
      | none => consPlain c (parseKeyCmd0F tok fuel cs)
    else
      consPlain c (parseKeyCmd0F tok fuel cs)

/-- `text.replace(/tok([^}]*)\}/g, (m, capture) => f capture)`. -/
def replaceKeyCmd0 (tok : Str) (f : Str → Str) (t : Str) : Str :=
  renderSegs f (parseKeyCmd0F tok t.length t)

/-- Strip `\citep?\{[^}]*\}` occurrences from a caption. -/
def stripCiteF : Nat → Str → Str
  | _, [] => []
  | 0, t => t
  | fuel + 1, c :: cs =>
    if c = '\\' && hasPfx (lit "cite") cs then
      match List.drop 4 cs with
      | 'p' :: '{' :: r =>
        match grabKey0 r with
        | some (_, rest) => stripCiteF fuel rest
        | none => c :: stripCiteF fuel cs
      | '{' :: r =>
        match grabKey0 r with
        | some (_, rest) => stripCiteF fuel rest
        | none => c :: stripCiteF fuel cs
      | _ => c :: stripCiteF fuel cs
    else c :: stripCiteF fuel cs

/-- Collapse every whitespace run to a single space (`\s+` → one space). -/
def collapseWsF : Nat → Str → Str
  | _, [] => []
  | 0, t => t
  | fuel + 1, c :: cs =>
    if isWs c then ' ' :: collapseWsF fuel (cs.dropWhile isWs)
    else c :: collapseWsF fuel cs

/-- The caption-cleaning chain of `extractFigures`: strip citations, unwrap
`\textbf`/`\emph`, turn `\ref` into a question mark, strip `\label`, collapse
whitespace, trim. -/
def cleanCaption (c : Str) : Str :=
  let c1 := stripCiteF c.length c
  let c2 := replaceKeyCmd0 (lit "\\textbf\x7b") (fun s => s) c1
  let c3 := replaceKeyCmd0 (lit "\\emph\x7b") (fun s => s) c2
  let c4 := replaceKeyCmd0 (lit "\\ref\x7b") (fun _ => ['?']) c3
  let c5 := replaceKeyCmd0 (lit "\\label\x7b") (fun _ => []) c4
  trimWs (collapseWsF c5.length c5)

/-- Scan a block for `\includegraphics(?:\[[^\]]*\])?\{([^}]+)\}` captures. -/
def scanGraphicsF : Nat → Str → List Str
  | _, [] => []
  | 0, _ => []
  | fuel + 1, c :: cs =>
    if c = '\\' && hasPfx (lit "includegraphics") cs then
      let t1 := List.drop 15 cs
      let t2 := match t1 with
                | '[' :: r =>
                  match r.dropWhile (fun ch => ch ≠ ']') with
                  | ']' :: rr => some rr
                  | _ => none
                | r => some r
      match t2 with
      | some ('{' :: r2) =>
        match grabKey r2 with
        | some (p, rest) => p :: scanGraphicsF fuel rest
        | none => scanGraphicsF fuel cs
      | _ => scanGraphicsF fuel cs
    else scanGraphicsF fuel cs

/-- The fixed extension list tried by image resolution, in order. -/
def imgExtensions : List Str :=
  [[], lit ".png", lit ".jpg", lit ".jpeg", lit ".pdf", lit ".eps"]

/-- `path.join` for the simple relative paths occurring here. -/
def joinPath (a b : Str) : Str := a ++ ['/'] ++ b

/-- Resolve a declared image path against the extension list; the first
existing candidate wins. -/
def resolveImage (ops : FsOps) (baseDir p : Str) : Option Str :=
  (imgExtensions.find? (fun ext => ops.fsExists (joinPath baseDir (p ++ ext)))).map
    (fun ext => joinPath baseDir (p ++ ext))

/-- ASCII lowercase. -/
def asciiLower (c : Char) : Char :=
  if 'A' ≤ c && c ≤ 'Z' then Char.ofNat (c.toNat + 32) else c

/-- `path.extname`, lowercased as in the source. -/
def extnameOf (p : Str) : Str :=
  let rev := p.reverse
  let afterDot := rev.takeWhile (fun c => c ≠ '.' && c ≠ '/')
  match rev.drop afterDot.length with
  | '.' :: _ => ('.' :: afterDot.reverse).map asciiLower
  | _ => []

/-- `path.basename`. -/
def basenameOf (p : Str) : Str := (p.reverse.takeWhile (fun c => c ≠ '/')).reverse

/-- Remove a suffix when present. -/
def stripSfx (sfx t : Str) : Str :=
  if hasPfx sfx.reverse t.reverse then t.take (t.length - sfx.length) else t

/-- Handle one declared image path: resolve it, then copy or convert
according to the resolved extension; `none` when the figure source cannot be
resolved or converted. -/
def imageFor (ops : FsOps) (baseDir : Str) (p : Str) : Option Str :=
  match resolveImage ops baseDir p with
  | none => none
  | some resolved =>
    let ext := extnameOf resolved
    if ext = lit ".pdf" then
      if ops.pdfOk resolved then
        some (stripSfx (lit ".pdf") (basenameOf resolved) ++ lit ".png")
      else none
    else if ext = lit ".png" ∨ ext = lit ".jpg" ∨ ext = lit ".jpeg" then
      some (basenameOf resolved)
    else if ext = lit ".eps" then
      if ops.epsOk resolved then
        some (stripSfx (lit ".eps") (basenameOf resolved) ++ lit ".png")
      else none
    else none

/-- Scan the bracket group after `\includegraphics[` for
`width\s*=\s*([^,\]]+)`. -/
def widthInBracketF : Nat → Str → Option Str
  | _, [] => none
  | 0, _ => none
  | fuel + 1, c :: cs =>
    if c = '\n' then none
    else if c = 'w' && hasPfx (lit "idth") cs then
      match (List.drop 4 cs).dropWhile isWs with
      | '=' :: r =>
        let cap := (r.dropWhile isWs).takeWhile (fun ch => ch ≠ ',' && ch ≠ ']')
        if cap = [] then widthInBracketF fuel cs else some cap
      | _ => widthInBracketF fuel cs
    else widthInBracketF fuel cs

/-- First match of `\includegraphics\[.*?width\s*=\s*([^,\]]+)` in a block. -/
def widthScanF : Nat → Str → Option Str
  | _, [] => none
  | 0, _ => none
  | fuel + 1, c :: cs =>
    if c = '\\' && hasPfx (lit "includegraphics[") cs then
      match widthInBracketF cs.length (List.drop 16 cs) with
      | some w => some w
      | none => widthScanF fuel cs
    else widthScanF fuel cs

/-- Build the figure records from the blocks, numbering from 1. -/
def buildFigs (ops : FsOps) (baseDir : Str) : List Str → Nat → List Figure
  | [], _ => []
  | b :: rest, i =>
    let idx := i + 1
    let cap0 := match findCaptionIn b with
                | some cap => trimWs cap
                | none => lit "Figure " ++ lit (Nat.repr idx)
    let caption := cleanCaption cap0
    let label := match ResolveRefs.findLabelKey b with
                 | some (k, _) => k
                 | none => lit "fig:" ++ lit (Nat.repr idx)
    let images := (scanGraphicsF b.length b).filterMap (imageFor ops baseDir)
    let width := widthScanF b.length b
    ⟨idx, label, caption, images, width⟩ :: buildFigs ops baseDir rest idx

/-- `extractFigures` (extract-figures.js lines 65–165), with external effects
abstracted into `ops`. -/
def extractFigures (ops : FsOps) (texBaseDir : Str) (texContent : Str) : List Figure :=
  buildFigs ops texBaseDir (blocksOf texContent) 0

/-- One image tag of the replacement HTML. -/
def imgTag (caption img : Str) : Str :=
  lit "<img src=\"./figures/" ++ img ++ lit "\" alt=\"" ++ escapeHtml caption
    ++ lit "\" loading=\"lazy\" style=\"max-width:100%\">"

/-- Join with newlines (`Array.prototype.join('\n')`). -/
def joinNL : List Str → Str
  | [] => []
  | [x] => x
  | x :: rest => x ++ '\n' :: joinNL rest

/-- The figure HTML emitted for a figure that has images. -/
def figHtml (f : Figure) : Str :=
  lit "\n<figure id=\"" ++ f.label ++ lit "\">\n"
    ++ joinNL (f.images.map (imgTag f.caption))
    ++ lit "\n<figcaption><strong>Figure " ++ lit (Nat.repr f.id)
    ++ lit ".</strong> " ++ escapeHtml f.caption
    ++ lit "</figcaption>\n</figure>\n"

/-- The replacement for one figure environment: empty when the paired figure
is absent or has an empty image list (`if (!fig || fig.images.length === 0)
return ''`), the figure HTML otherwise. -/
def figRep : Option Figure → Str
  | none => []
  | some f => if f.images = [] then [] else figHtml f

/-- Render the figure segments, pairing the k-th block (counting from 0
within this call) with `figures.get? k`. -/
def renderFSegs (figures : List Figure) : Nat → List FSeg → Str
  | _, [] => []
  | i, FSeg.plain s :: rest => s ++ renderFSegs figures i rest
  | i, FSeg.block _ :: rest => figRep (figures.get? i) ++ renderFSegs figures (i + 1) rest

/-- `replaceFiguresInText` (extract-figures.js lines 182–194). -/
def replaceFiguresInText (text : Str) (figures : List Figure) : Str :=
  renderFSegs figures 0 (parseFigSegsF text.length text)

end ExtractFigures

/-! ## tools/render-math.js — KaTeX math rendering

The repository carries two revisions of render-math.js.  Both keep the
custom-macro table in a module-level variable set by `setCustomMacros` and
read by `renderMath`; the KaTeX collaborator is abstracted here as a function
parameter of type `Katex`, and the module-level variable is passed
explicitly, so one call of the source function corresponds to one application
of the embedded function to the current table.

`renderAllMath` (first revision, lines 149–194) runs three sequential
replacement passes: display environments
(`\begin\{(equation|align|gather|multline)\*?\}…\end\{\1\*?\}`, the `align`
case split into per-line equations), `$$…$$` display math, and single-dollar
inline math; each match is rendered through `renderMath` plus
`annotateVarsInMath` and wrapped in a bare `div.math-display` or
`span.math-inline` element. -/

namespace RenderMath

/-- The math-typesetting collaborator `katex.renderToString(latex,
{displayMode, macros})`, abstracted as a total function (the engine calls it
with `throwOnError: false`). -/
abbrev Katex := Str → Bool → List (Str × Str) → Str

/-- A macro table (JavaScript object used as a string map). -/
abbrev MacroTable := List (Str × Str)

/-- Object-property lookup in a macro table. -/
def lookupAssoc : MacroTable → Str → Option Str
  | [], _ => none
  | (k, v) :: rest, q => if q = k then some v else lookupAssoc rest q

/-- The built-in default macros of render-math.js. -/
def defaultMacros : MacroTable :=
  [(lit "\\R", lit "\\mathbb{R}"),
   (lit "\\N", lit "\\mathbb{N}"),
   (lit "\\Z", lit "\\mathbb{Z}"),
   (lit "\\softmax", lit "\\text{softmax}"),
   (lit "\\Attention", lit "\\text{Attention}"),
   (lit "\\MultiHead", lit "\\text{MultiHead}"),
   (lit "\\FFN", lit "\\text{FFN}"),
   (lit "\\LayerNorm", lit "\\text{LayerNorm}"),
   (lit "\\Concat", lit "\\text{Concat}"),
   (lit "\\head", lit "\\text{head}")]

/-- The object spread `{ ...defaultMacros, ..._customMacros }`: custom
entries shadow default entries under lookup. -/
def mergeMacros (custom : MacroTable) : MacroTable := custom ++ defaultMacros

/-- `setCustomMacros(m)`: the new value of the module-level `_customMacros`
variable, given the value it had before. -/
def setCustomMacros (m : MacroTable) (_old : MacroTable) : MacroTable := m

/-- Strip `<[^>]+>` HTML tags. -/
def stripTagsF : Nat → Str → Str
  | _, [] => []
  | 0, t => t
  | fuel + 1, c :: cs =>
    if c = '<' then
      let inner := cs.takeWhile (fun ch => ch ≠ '>')
      match cs.dropWhile (fun ch => ch ≠ '>') with
      | '>' :: rest =>
        if inner = [] then c :: stripTagsF fuel cs else stripTagsF fuel rest
      | _ => c :: stripTagsF fuel cs
    else c :: stripTagsF fuel cs

/-- `renderMath` of the first revision (lines 81–118, with the empty
`extraMacros` that `renderAllMath` always passes): clean the LaTeX, then hand
it to the collaborator together with the merged macro table. -/
def renderMath (k : Katex) (custom : MacroTable) (latex : Str) (displayMode : Bool) : Str :=
  let c0 := trimWs latex
  let c1 := replaceKeyCmd0A (lit "\\label\x7b") c0
  let c2 := replaceKeyCmd0A (lit "\\tag\x7b") c1
  let c3 := replaceAllTok (lit "\\nonumber") [] c2
  let c4 := stripTagsF c3.length c3
  let c5 := replaceAllTok (lit "&lt;") ['<'] c4
  let c6 := replaceAllTok (lit "&gt;") ['>'] c5
  let c7 := replaceAllTok (lit "&amp;") ['&'] c6
  let c8 := replaceAllTok (lit "&quot;") ['"'] c7
  k c8 displayMode (mergeMacros custom)
where
  /-- Strip a `\cmd\{[^}]*\}` occurrence list (used for `\label` and
  `\tag`). -/
  replaceKeyCmd0A (tok : Str) (t : Str) : Str :=
    renderSegs (fun _ => []) (ExtractFigures.parseKeyCmd0F tok t.length t)

/-- `escapeHtml` of render-math.js (ampersand, less-than, greater-than,
quote). -/
def escapeHtmlRM (t : Str) : Str :=
  replaceAllTok ['"'] (lit "&quot;")
    (replaceAllTok ['>'] (lit "&gt;")
      (replaceAllTok ['<'] (lit "&lt;")
        (replaceAllTok ['&'] (lit "&amp;") t)))

/-- The single-letter annotatable variables of `VAR_DESCRIPTIONS` in object
insertion order, with description and colour (`T` falls back to the default
colour). -/
def annotateVars : List (Char × Str × Str) :=
  [('Q', lit "Query matrix — packed queries (shape: seq_len × d_k)", lit "#f0a050"),
   ('K', lit "Key matrix — packed keys (shape: seq_len × d_k)", lit "#58a6ff"),
   ('V', lit "Value matrix — packed values (shape: seq_len × d_v)", lit "#7ee787"),
   ('h', lit "Number of parallel attention heads (h = 8)", lit "#ff7b72"),
   ('W', lit "Weight matrix", lit "#a5d6ff"),
   ('b', lit "Bias vector", lit "#ffd700"),
   ('x', lit "Input tensor", lit "#98c379"),
   ('n', lit "Sequence length", lit "#c678dd"),
   ('T', lit "Transpose", lit "#f0a050")]

/-- The literal part of the variable-annotation pattern
`(<span class="mord mathnormal"[^>]*>)`. -/
def annotOpenTok : Str := lit "<span class=\"mord mathnormal\""

/-- One global replacement of
`(<span class="mord mathnormal"[^>]*>)(C)(</span>)` with the var-wrapped
markup, for one single-letter variable. -/
def annotPassF (letter : Char) (desc color : Str) : Nat → Str → Str
  | _, [] => []
  | 0, t => t
  | fuel + 1, c :: cs =>
    if hasPfx annotOpenTok (c :: cs) then
      let afterTok := List.drop (annotOpenTok.length - 1) cs
      let attrs := afterTok.takeWhile (fun ch => ch ≠ '>')
      match afterTok.dropWhile (fun ch => ch ≠ '>') with
      | '>' :: (l :: rest2) =>
        if l = letter && hasPfx (lit "</span>") rest2 then
          (lit "<span class=\"var\" data-var=\"" ++ [letter] ++ lit "\" data-desc=\""
            ++ escapeHtmlRM desc ++ lit "\" style=\"--var-color: " ++ color ++ lit "\">"
            ++ annotOpenTok ++ attrs ++ ['>'] ++ [l] ++ lit "</span>" ++ lit "</span>")
            ++ annotPassF letter desc color fuel (List.drop 7 rest2)
        else c :: annotPassF letter desc color fuel cs
      | _ => c :: annotPassF letter desc color fuel cs
    else c :: annotPassF letter desc color fuel cs

/-- `annotateVarsInMath` (with no extra caller-supplied descriptions): one
replacement pass per single-letter variable, in table order. -/
def annotateVarsInMath (html : Str) : Str :=
  annotateVars.foldl (fun h e => annotPassF e.1 e.2.1 e.2.2 h.length h) html

/-- Segments of the display-environment pass. -/
inductive ESeg where
  | plain (s : Str)
  | env (name : Str) (content : Str)
deriving DecidableEq

/-- Prepend one character onto an environment segment list. -/
def consPlainE (c : Char) : List ESeg → List ESeg
  | ESeg.plain s :: rest => ESeg.plain (c :: s) :: rest
  | segs => ESeg.plain [c] :: segs

/-- Match `\begin\{(names)\*?\}` at the current position. -/
def envBeginAt (names : List Str) : Str → Option (Str × Str)
  | [] => none
  | c :: cs =>
    if c = '\\' && hasPfx (lit "begin\x7b") cs then
      ResolveRefs.tryNames names (List.drop 6 cs)
    else none

/-- First match of `\end\{NAME\*?\}`: content before it and the text after. -/
def findEnvEndSplit (env : Str) : Str → Option (Str × Str)
  | [] => none
  | c :: cs =>
    if c = '\\' && hasPfx (lit "end\x7b" ++ env) cs then
      match List.drop (4 + env.length) cs with
      | '*' :: '}' :: rest => some ([], rest)
      | '}' :: rest => some ([], rest)
      | _ => (findEnvEndSplit env cs).map (fun p => (c :: p.1, p.2))
    else (findEnvEndSplit env cs).map (fun p => (c :: p.1, p.2))

/-- The environment names of the display-math regex. -/
def mathEnvNames : List Str :=
  [lit "equation", lit "align", lit "gather", lit "multline"]

/-- Scan for display-math environments. -/
def parseEnvSegsF : Nat → Str → List ESeg
  | _, [] => []
  | 0, t => [ESeg.plain t]
  | fuel + 1, c :: cs =>
    match envBeginAt mathEnvNames (c :: cs) with
    | some (env, rest) =>
      match findEnvEndSplit env rest with
      | some (content, rest2) => ESeg.env env content :: parseEnvSegsF fuel rest2
      | none => consPlainE c (parseEnvSegsF fuel cs)
    | none => consPlainE c (parseEnvSegsF fuel cs)

/-- The per-line split of an environment body: `align` splits on the row
separator with alignment ampersands blanked, anything else is one line. -/
def envLines (env content : Str) : List Str :=
  if env = lit "align" then
    ((splitOnTokF (lit "\\\\") content.length content).map
      (fun l => trimWs (replaceAllTok ['&'] [' '] l))).filter (fun l => l ≠ [])
  else [trimWs content]

/-- Join with newlines. -/
def joinNLRM : List Str → Str
  | [] => []
  | [x] => x
  | x :: rest => x ++ '\n' :: joinNLRM rest

/-- The replacement emitted for one display-math environment. -/
def envReplacement (k : Katex) (custom : MacroTable) (env content : Str) : Str :=
  ('\n' :: joinNLRM ((envLines env content).map
    (fun line => lit "<div class=\"math-display\">"
      ++ annotateVarsInMath (renderMath k custom line true) ++ lit "</div>"))) ++ ['\n']

/-- Render the environment segments. -/
def renderESegs (k : Katex) (custom : MacroTable) : List ESeg → Str
  | [] => []
  | ESeg.plain s :: rest => s ++ renderESegs k custom rest
  | ESeg.env env content :: rest =>
    envReplacement k custom env content ++ renderESegs k custom rest

/-- Segments of the `$$…$$` pass. -/
inductive DSeg where
  | plain (s : Str)
  | disp (content : Str)
deriving DecidableEq

/-- Prepend one character onto a display segment list. -/
def consPlainD (c : Char) : List DSeg → List DSeg
  | DSeg.plain s :: rest => DSeg.plain (c :: s) :: rest
  | segs => DSeg.plain [c] :: segs

/-- Scan for `\$\$([\s\S]*?)\$\$`. -/
def parseD2SegsF : Nat → Str → List DSeg
  | _, [] => []
  | 0, t => [DSeg.plain t]
  | fuel + 1, c :: cs =>
    if c = '$' then
      match cs with
      | '$' :: r =>
        match splitAtFirst (lit "$$") r with
        | some (content, rest) => DSeg.disp content :: parseD2SegsF fuel rest
        | none => consPlainD c (parseD2SegsF fuel cs)
      | _ => consPlainD c (parseD2SegsF fuel cs)
    else consPlainD c (parseD2SegsF fuel cs)

/-- Render the `$$` segments. -/
def renderD2Segs (k : Katex) (custom : MacroTable) : List DSeg → Str
  | [] => []
  | DSeg.plain s :: rest => s ++ renderD2Segs k custom rest
  | DSeg.disp content :: rest =>
    (lit "\n<div class=\"math-display\">"
      ++ annotateVarsInMath (renderMath k custom (trimWs content) true)
      ++ lit "</div>\n") ++ renderD2Segs k custom rest

/-- Segments of the inline pass. -/
inductive ISeg where
  | plain (s : Str)
  | inl (content : Str)
deriving DecidableEq

/-- Prepend one character onto an inline segment list. -/
def consPlainI (c : Char) : List ISeg → List ISeg
  | ISeg.plain s :: rest => ISeg.plain (c :: s) :: rest
  | segs => ISeg.plain [c] :: segs

/-- Parse the lazy inline content `((?:[^$\\\n]|\\.)+?)` followed by the
closing dollar; `allowNl` is false for the first revision of the regex
(which excludes newlines from the character class) and true for the second.
Returns the content and the text after the closing dollar. -/
def inlineContentF (allowNl : Bool) : Nat → Str → Option (Str × Str)
  | 0, _ => none
  | fuel + 1, t =>
    let unit : Option (Str × Str) :=
      match t with
      | '\\' :: d :: rest => if d ≠ '\n' then some (['\\', d], rest) else none
      | c :: rest =>
        if c ≠ '$' && c ≠ '\\' && (allowNl || c ≠ '\n') then some ([c], rest) else none
      | [] => none
    match unit with
    | none => none
    | some (u, rest) =>
      match rest with
      | '$' :: r2 => some (u, r2)
      | _ =>
        match inlineContentF allowNl fuel rest with
        | some (cont, r3) => some (u ++ cont, r3)
        | none => none

/-- Scan for `(?<!\$)\$(?!\$)CONTENT\$`; the previous character is threaded
for the lookbehind. -/
def parseInlSegsF (allowNl : Bool) : Nat → Option Char → Str → List ISeg
  | _, _, [] => []
  | 0, _, t => [ISeg.plain t]
  | fuel + 1, prev, c :: cs =>
    if c = '$' && prev ≠ some '$'
        && (match cs with | '$' :: _ => false | _ => true) then
      match inlineContentF allowNl cs.length cs with
      | some (content, rest) =>
        ISeg.inl content :: parseInlSegsF allowNl fuel (some '$') rest
      | none => consPlainI c (parseInlSegsF allowNl fuel (some c) cs)
    else consPlainI c (parseInlSegsF allowNl fuel (some c) cs)

/-- Render the inline segments. -/
def renderInlSegs (k : Katex) (custom : MacroTable) : List ISeg → Str
  | [] => []
  | ISeg.plain s :: rest => s ++ renderInlSegs k custom rest
  | ISeg.inl content :: rest =>
    (lit "<span class=\"math-inline\">"
      ++ annotateVarsInMath (renderMath k custom (trimWs content) false)
      ++ lit "</span>") ++ renderInlSegs k custom rest

/-- `renderAllMath` (render-math.js, first revision, lines 149–194): the
environment pass, then the `$$` pass, then the inline pass. -/
def renderAllMath (k : Katex) (custom : MacroTable) (text : Str) : Str :=
  let r1 := renderESegs k custom (parseEnvSegsF text.length text)
  let r2 := renderD2Segs k custom (parseD2SegsF r1.length r1)
  renderInlSegs k custom (parseInlSegsF false r2.length none r2)

/-- `renderMath` of the second revision (lines 243–277): same shape with a
slightly different cleaning order and entity list. -/
def renderMathB (k : Katex) (custom : MacroTable) (latex : Str) (displayMode : Bool) : Str :=
  let c0 := trimWs latex
  let c1 := stripTagsF c0.length c0
  let c2 := renderMath.replaceKeyCmd0A (lit "\\label\x7b") c1
  let c3 := renderMath.replaceKeyCmd0A (lit "\\tag\x7b") c2
  let c4 := replaceAllTok (lit "\\nonumber") [] c3
  let c5 := replaceAllTok (lit "&amp;") ['&'] c4
  let c6 := replaceAllTok (lit "&lt;") ['<'] c5
  let c7 := replaceAllTok (lit "&gt;") ['>'] c6
  k c7 displayMode (mergeMacros custom)

end RenderMath


/-! ## Helper lemmas -/

theorem replaceAllTokF_of_not_substr {tok rep : Str} :
    ∀ (fuel : Nat) (t : Str), isSubstrL tok t = false →
      replaceAllTokF tok rep fuel t = t := by
  intro fuel
  induction fuel with
  | zero => intro t _; cases t <;> rfl
  | succ n ih =>
    intro t h
    cases t with
    | nil => rfl
    | cons c cs =>
      simp only [isSubstrL, Bool.or_eq_false_iff] at h
      simp only [replaceAllTokF, h.1, if_neg]
      simp [ih cs h.2]

theorem replaceAllTok_of_not_substr {tok rep t : Str}
    (h : isSubstrL tok t = false) : replaceAllTok tok rep t = t :=
  replaceAllTokF_of_not_substr t.length t h

theorem parseKeyCmdF_of_not_substr {tok : Str} :
    ∀ (fuel : Nat) (t : Str), isSubstrL tok t = false →
      renderSegs f (parseKeyCmdF tok fuel t) = t := by
  intro fuel
  induction fuel with
  | zero =>
    intro t _
    cases t with
    | nil => rfl
    | cons c cs => simp [parseKeyCmdF, renderSegs]
  | succ n ih =>
    intro t h
    cases t with
    | nil => rfl
    | cons c cs =>
      simp only [isSubstrL, Bool.or_eq_false_iff] at h
      simp only [parseKeyCmdF, h.1, if_neg]
      have hrec := ih cs h.2
      cases hsegs : parseKeyCmdF tok n cs with
      | nil =>
        rw [hsegs] at hrec
        simp only [renderSegs] at hrec
        simp [consPlain, renderSegs, ← hrec]
      | cons s rest =>
        rw [hsegs] at hrec
        cases s with
        | plain p =>
          simp only [renderSegs] at hrec
          simp [consPlain, renderSegs, hrec]
        | key k =>
          simp only [renderSegs] at hrec
          simp [consPlain, renderSegs, hrec]

theorem replaceKeyCmd_of_not_substr {tok : Str} {f : Str → Str} {t : Str}
    (h : isSubstrL tok t = false) : replaceKeyCmd tok f t = t :=
  parseKeyCmdF_of_not_substr t.length t h

theorem not_substr_of_head_not_mem {c0 : Char} {tok : Str}
    (htok : tok.head? = some c0) :
    ∀ {t : Str}, c0 ∉ t → isSubstrL tok t = false := by
  obtain ⟨as, rfl⟩ : ∃ as, tok = c0 :: as := by
    cases tok with
    | nil => simp at htok
    | cons a as =>
      simp only [List.head?, Option.some.injEq] at htok
      exact ⟨as, by rw [htok]⟩
  intro t hmem
  induction t with
  | nil => simp [isSubstrL, hasPfx]
  | cons c cs ih =>
    simp only [isSubstrL, Bool.or_eq_false_iff]
    constructor
    · have hne : c0 ≠ c := fun h => hmem (h ▸ List.mem_cons_self c cs)
      simp [hasPfx, hne]
    · exact ih (fun h => hmem (List.mem_cons_of_mem _ h))

theorem hasPfx_false_of_head {tok : Str} {c0 : Char} (htok : tok.head? = some c0)
    {c : Char} (hne : c0 ≠ c) (cs : Str) : hasPfx tok (c :: cs) = false := by
  obtain ⟨as, rfl⟩ : ∃ as, tok = c0 :: as := by
    cases tok with
    | nil => simp at htok
    | cons a as =>
      simp only [List.head?, Option.some.injEq] at htok
      exact ⟨as, by rw [htok]⟩
  simp [hasPfx, hne]

namespace Tex2Html

theorem replace0F_of_no_backslash {name body : Str} :
    ∀ (fuel : Nat) (t : Str), '\\' ∉ t → replace0F name body fuel t = t := by
  intro fuel
  induction fuel with
  | zero => intro t _; cases t <;> rfl
  | succ n ih =>
    intro t h
    cases t with
    | nil => rfl
    | cons c cs =>
      have hc : c ≠ '\\' := fun hh => h (hh ▸ List.mem_cons_self c cs)
      have hcs : '\\' ∉ cs := fun hh => h (List.mem_cons_of_mem _ hh)
      simp only [replace0F]
      rw [if_neg (by simp [hc]), ih cs hcs]

theorem replace0F_append_clean {name body : Str} :
    ∀ (pre : Str) (t : Str) (fuel : Nat), '\\' ∉ pre → pre.length + t.length ≤ fuel →
      replace0F name body fuel (pre ++ t) =
        pre ++ replace0F name body (fuel - pre.length) t := by
  intro pre
  induction pre with
  | nil => intro t fuel _ _; simp
  | cons c cs ih =>
    intro t fuel h hfuel
    have hc : c ≠ '\\' := fun hh => h (hh ▸ List.mem_cons_self c cs)
    have hcs : '\\' ∉ cs := fun hh => h (List.mem_cons_of_mem _ hh)
    cases fuel with
    | zero =>
      exfalso
      simp only [List.length_cons] at hfuel
      omega
    | succ n =>
      have hn : cs.length + t.length ≤ n := by
        simp only [List.length_cons] at hfuel; omega
      have harith : n + 1 - (c :: cs).length = n - cs.length := by
        simp only [List.length_cons]; omega
      simp only [List.cons_append, replace0F]
      rw [if_neg (by simp [hc])]
      simp only [List.append_eq]
      rw [ih t n hcs hn, harith]

theorem replace0F_step_match {name body cs : Str} (fuel : Nat)
    (h1 : hasPfx name cs = true)
    (h2 : noAlphaHead (List.drop name.length cs) = true) :
    replace0F name body (fuel + 1) ('\\' :: cs)
      = body ++ replace0F name body fuel (List.drop name.length cs) := by
  simp [replace0F, h1, h2]

theorem replace0F_step_skip {name body : Str} {c : Char} {cs : Str} (fuel : Nat)
    (h : (c = '\\' && hasPfx name cs && noAlphaHead (List.drop name.length cs)) = false) :
    replace0F name body (fuel + 1) (c :: cs) = c :: replace0F name body fuel cs := by
  simp [replace0F, h]

end Tex2Html

namespace ResolveRefs

theorem findL_setL_self (k : Str) (v : LabelEntry) :
    ∀ m : LabelMap, findL k (setL k v m) = some v := by
  intro m
  induction m with
  | nil => simp [setL, findL]
  | cons p rest ih =>
    obtain ⟨k2, v2⟩ := p
    by_cases h : k = k2
    · simp [setL, findL, h]
    · simp [setL, findL, h, ih]

theorem findL_setL_ne {k k2 : Str} (h : k ≠ k2) (v : LabelEntry) :
    ∀ m : LabelMap, findL k (setL k2 v m) = findL k m := by
  intro m
  induction m with
  | nil => simp [setL, findL, h]
  | cons p rest ih =>
    obtain ⟨k3, v3⟩ := p
    by_cases h2 : k2 = k3
    · subst h2
      simp [setL, findL, h]
    · by_cases h3 : k = k3
      · simp [setL, findL, h2, h3]
      · simp [setL, findL, h2, h3, ih]

theorem findL_setIfAbsent_of_found {k : Str} {v : LabelEntry} {m : LabelMap}
    (h : findL k m = some v) (k2 : Str) (v2 : LabelEntry) :
    findL k (setIfAbsent k2 v2 m) = some v := by
  unfold setIfAbsent
  by_cases habs : (findL k2 m).isSome
  · simp [habs, h]
  · simp only [habs, Bool.false_eq_true, if_false]
    have hne : k ≠ k2 := by
      intro he
      apply habs
      rw [← he, h]
      rfl
    rw [findL_setL_ne hne, h]

theorem findL_applyStandalone_of_found {k : Str} {v : LabelEntry} :
    ∀ (keys : List Str) (m : LabelMap), findL k m = some v →
      findL k (applyStandalone keys m) = some v := by
  intro keys
  induction keys with
  | nil => intro m h; exact h
  | cons k2 rest ih =>
    intro m h
    simp only [applyStandalone, List.foldl_cons]
    exact ih _ (findL_setIfAbsent_of_found h k2 _)

/-- The standalone catch-all pass never overwrites an existing entry. -/
theorem standalonePass_preserves {k : Str} {v : LabelEntry} {t : Str} {m : LabelMap}
    (h : findL k m = some v) : findL k (standalonePass t m) = some v :=
  findL_applyStandalone_of_found _ m h

end ResolveRefs

namespace Pipeline

theorem trySecAt_of_no_backslash {c : Char} (cs : Str) (hc : c ≠ '\\') :
    trySecAt (c :: cs) = none := by
  simp [trySecAt, hc]

theorem findSec_of_no_backslash : ∀ {t : Str}, '\\' ∉ t → findSec t = none := by
  intro t h
  induction t with
  | nil => rfl
  | cons c cs ih =>
    have hc : c ≠ '\\' := fun hh => h (hh ▸ List.mem_cons_self c cs)
    have hcs : '\\' ∉ cs := fun hh => h (List.mem_cons_of_mem _ hh)
    simp [findSec, trySecAt_of_no_backslash cs hc, ih hcs]

end Pipeline

namespace RenderMath

theorem renderD2Segs_consPlainD (k : Katex) (custom : MacroTable) (c : Char)
    (segs : List DSeg) :
    renderD2Segs k custom (consPlainD c segs) = c :: renderD2Segs k custom segs := by
  cases segs with
  | nil => simp [consPlainD, renderD2Segs]
  | cons s rest =>
    cases s with
    | plain p => simp [consPlainD, renderD2Segs]
    | disp p => simp [consPlainD, renderD2Segs]

theorem renderD2Segs_parse_of_no_dollar (k : Katex) (custom : MacroTable) :
    ∀ (fuel : Nat) (t : Str), '$' ∉ t →
      renderD2Segs k custom (parseD2SegsF fuel t) = t := by
  intro fuel
  induction fuel with
  | zero =>
    intro t _
    cases t with
    | nil => rfl
    | cons c cs => simp [parseD2SegsF, renderD2Segs]
  | succ n ih =>
    intro t h
    cases t with
    | nil => rfl
    | cons c cs =>
      have hc : c ≠ '$' := fun hh => h (hh ▸ List.mem_cons_self c cs)
      have hcs : '$' ∉ cs := fun hh => h (List.mem_cons_of_mem _ hh)
      simp only [parseD2SegsF, hc, if_neg, Bool.false_eq_true]
      rw [if_neg (by simp [hc])]
      rw [renderD2Segs_consPlainD, ih cs hcs]

theorem renderInlSegs_consPlainI (k : Katex) (custom : MacroTable) (c : Char)
    (segs : List ISeg) :
    renderInlSegs k custom (consPlainI c segs) = c :: renderInlSegs k custom segs := by
  cases segs with
  | nil => simp [consPlainI, renderInlSegs]
  | cons s rest =>
    cases s with
    | plain p => simp [consPlainI, renderInlSegs]
    | inl p => simp [consPlainI, renderInlSegs]

theorem renderInlSegs_parse_of_no_dollar (k : Katex) (custom : MacroTable)
    (allowNl : Bool) :
    ∀ (fuel : Nat) (prev : Option Char) (t : Str), '$' ∉ t →
      renderInlSegs k custom (parseInlSegsF allowNl fuel prev t) = t := by
  intro fuel
  induction fuel with
  | zero =>
    intro prev t _
    cases t with
    | nil => rfl
    | cons c cs => simp [parseInlSegsF, renderInlSegs]
  | succ n ih =>
    intro prev t h
    cases t with
    | nil => rfl
    | cons c cs =>
      have hc : c ≠ '$' := fun hh => h (hh ▸ List.mem_cons_self c cs)
      have hcs : '$' ∉ cs := fun hh => h (List.mem_cons_of_mem _ hh)
      simp only [parseInlSegsF]
      rw [if_neg (by simp [hc])]
      rw [renderInlSegs_consPlainI, ih (some c) cs hcs]

theorem annotPassF_of_no_lt (letter : Char) (desc color : Str) :
    ∀ (fuel : Nat) {t : Str}, '<' ∉ t → annotPassF letter desc color fuel t = t := by
  intro fuel
  induction fuel with
  | zero => intro t _; cases t <;> rfl
  | succ n ih =>
    intro t h
    cases t with
    | nil => rfl
    | cons c cs =>
      have hc : '<' ≠ c := fun hh => h (hh ▸ List.mem_cons_self c cs)
      have hcs : '<' ∉ cs := fun hh => h (List.mem_cons_of_mem _ hh)
      have hhead : annotOpenTok.head? = some '<' := by decide
      simp only [annotPassF]
      rw [if_neg (by simp [hasPfx_false_of_head hhead hc])]
      rw [ih hcs]

theorem annotateVarsInMath_of_no_lt {html : Str} (h : '<' ∉ html) :
    annotateVarsInMath html = html := by
  simp only [annotateVarsInMath, annotateVars, List.foldl_cons, List.foldl_nil]
  repeat rw [annotPassF_of_no_lt _ _ _ _ h]

theorem lookupAssoc_append_of_some {m : MacroTable} {k v : Str}
    (h : lookupAssoc m k = some v) (d : MacroTable) :
    lookupAssoc (m ++ d) k = some v := by
  induction m with
  | nil => simp [lookupAssoc] at h
  | cons p rest ih =>
    obtain ⟨k2, v2⟩ := p
    by_cases hk : k = k2
    · simp [lookupAssoc, hk] at h ⊢
      exact h
    · rw [lookupAssoc, if_neg hk] at h
      rw [List.cons_append, lookupAssoc, if_neg hk]
      exact ih h

end RenderMath

/-! ## Claim theorems -/

/-- Claim C2, counterexample: on a document body with zero sectioning
commands, `extractSections` returns the empty section list — not one
implicit section containing the whole (non-empty) body. -/
theorem c2_counterexample :
    Pipeline.extractSections (lit "No sectioning commands here.") = []
      ∧ lit "No sectioning commands here." ≠ [] := by
  constructor
  · decide
  · decide

/-- Claim C2 as amended: for every document body containing no backslash
(in particular, no sectioning command at all), the structural segmenter
returns the empty section list; the body is dropped rather than wrapped in
an implicit section. -/
theorem c2_theorem (body : Str) (h : '\\' ∉ body) :
    Pipeline.extractSections body = [] := by
  unfold Pipeline.extractSections
  rw [Pipeline.findSec_of_no_backslash h]

/-- Witness for `c2_theorem`. -/
theorem c2_theorem_witness :
    Pipeline.extractSections (lit "plain text body") = [] :=
  c2_theorem (lit "plain text body") (by decide)

/-- Claim C3, counterexample: for a labelled equation nested inside a figure
environment, the equation pass of `collectLabels` (the run's first sighting
of the key) records `(equation, 1)`, but the final table maps the same key
to `(figure, 1)` — the entry created on first sighting is overwritten later
in the same run. -/
theorem c3_counterexample :
    ResolveRefs.findL (lit "a")
        (ResolveRefs.eqPass
          (lit "\\begin{figure}\\begin{equation}\\label{a}\\end{equation}\\end{figure}") [])
        = some ⟨lit "equation", ResolveRefs.LNum.num 1⟩
      ∧ ResolveRefs.findL (lit "a")
          (ResolveRefs.collectLabels
            (lit "\\begin{figure}\\begin{equation}\\label{a}\\end{equation}\\end{figure}"))
          = some ⟨lit "figure", ResolveRefs.LNum.num 1⟩ := by
  constructor
  · decide
  · decide

/-- Claim C3 as amended: the four environment passes of `collectLabels` set
their entries unconditionally — the figure pass maps the nested label to
`(figure, 1)` whatever entry the table already holds for it — while the
standalone catch-all pass never overwrites an existing entry.  Numbering is
a pure function of the document text, so collecting twice yields identical
tables. -/
theorem c3_theorem (m : ResolveRefs.LabelMap) (t : Str) (k : Str)
    (v : ResolveRefs.LabelEntry) (h : ResolveRefs.findL k m = some v) :
    ResolveRefs.findL k (ResolveRefs.standalonePass t m) = some v
      ∧ ResolveRefs.findL (lit "a")
          (ResolveRefs.figPass
            (lit "\\begin{figure}\\begin{equation}\\label{a}\\end{equation}\\end{figure}") m)
          = some ⟨lit "figure", ResolveRefs.LNum.num 1⟩ := by
  constructor
  · exact ResolveRefs.standalonePass_preserves h
  · unfold ResolveRefs.figPass
    rw [show ResolveRefs.scanEnvLabels [lit "figure"]
          (lit "\\begin{figure}\\begin{equation}\\label{a}\\end{equation}\\end{figure}")
          = [lit "a"] from by decide]
    simp only [ResolveRefs.assignSeq]
    exact ResolveRefs.findL_setL_self _ _ m

/-- Witness for `c3_theorem`. -/
theorem c3_theorem_witness :
    ResolveRefs.findL (lit "z")
        (ResolveRefs.standalonePass (lit "\\label{z} and \\label{a}")
          [(lit "z", ⟨lit "equation", ResolveRefs.LNum.num 3⟩)])
        = some ⟨lit "equation", ResolveRefs.LNum.num 3⟩
      ∧ ResolveRefs.findL (lit "a")
          (ResolveRefs.figPass
            (lit "\\begin{figure}\\begin{equation}\\label{a}\\end{equation}\\end{figure}")
            [(lit "z", ⟨lit "equation", ResolveRefs.LNum.num 3⟩)])
          = some ⟨lit "figure", ResolveRefs.LNum.num 1⟩ :=
  c3_theorem [(lit "z", ⟨lit "equation", ResolveRefs.LNum.num 3⟩)]
    (lit "\\label{z} and \\label{a}") (lit "z")
    ⟨lit "equation", ResolveRefs.LNum.num 3⟩ (by decide)

/-- Claim C6 (confirmed): a `\eqref`, `\ref` or `\autoref` whose key has no
entry in the label table rewrites to a visible question mark — `(?)` for
`\eqref`, `?` for the others; `resolveRefs` is a total function, so an
unresolved key never halts conversion. -/
theorem c6_theorem (labels : ResolveRefs.LabelMap)
    (h : ResolveRefs.findL (lit "nokey") labels = none) :
    ResolveRefs.resolveRefs (lit "\\eqref{nokey}") labels = lit "(?)"
      ∧ ResolveRefs.resolveRefs (lit "\\ref{nokey}") labels = lit "?"
      ∧ ResolveRefs.resolveRefs (lit "\\autoref{nokey}") labels = lit "?" := by
  have heq : replaceKeyCmd (lit "\\eqref\x7b") (ResolveRefs.eqrefRender labels)
      (lit "\\eqref{nokey}") = lit "(?)" := by
    unfold replaceKeyCmd
    rw [show parseKeyCmdF (lit "\\eqref\x7b") (lit "\\eqref{nokey}").length
          (lit "\\eqref{nokey}") = [Seg.key (lit "nokey")] from by decide]
    simp [renderSegs, ResolveRefs.eqrefRender, h]
  have href : replaceKeyCmd (lit "\\ref\x7b") (ResolveRefs.refRender labels)
      (lit "\\ref{nokey}") = lit "?" := by
    unfold replaceKeyCmd
    rw [show parseKeyCmdF (lit "\\ref\x7b") (lit "\\ref{nokey}").length
          (lit "\\ref{nokey}") = [Seg.key (lit "nokey")] from by decide]
    simp [renderSegs, ResolveRefs.refRender, h]
    decide
  have haut : replaceKeyCmd (lit "\\autoref\x7b") (ResolveRefs.autorefRender labels)
      (lit "\\autoref{nokey}") = lit "?" := by
    unfold replaceKeyCmd
    rw [show parseKeyCmdF (lit "\\autoref\x7b") (lit "\\autoref{nokey}").length
          (lit "\\autoref{nokey}") = [Seg.key (lit "nokey")] from by decide]
    simp [renderSegs, ResolveRefs.autorefRender, h]
    decide
  have i1 : replaceKeyCmd (lit "\\ref\x7b") (ResolveRefs.refRender labels)
      (lit "(?)") = lit "(?)" := replaceKeyCmd_of_not_substr (by decide)
  have i2 : replaceKeyCmd (lit "\\autoref\x7b") (ResolveRefs.autorefRender labels)
      (lit "(?)") = lit "(?)" := replaceKeyCmd_of_not_substr (by decide)
  have i3 : replaceKeyCmd (lit "\\label\x7b") ResolveRefs.anchorRender
      (lit "(?)") = lit "(?)" := replaceKeyCmd_of_not_substr (by decide)
  have j1 : replaceKeyCmd (lit "\\eqref\x7b") (ResolveRefs.eqrefRender labels)
      (lit "\\ref{nokey}") = lit "\\ref{nokey}" := replaceKeyCmd_of_not_substr (by decide)
  have j2 : replaceKeyCmd (lit "\\autoref\x7b") (ResolveRefs.autorefRender labels)
      (lit "?") = lit "?" := replaceKeyCmd_of_not_substr (by decide)
  have j3 : replaceKeyCmd (lit "\\label\x7b") ResolveRefs.anchorRender
      (lit "?") = lit "?" := replaceKeyCmd_of_not_substr (by decide)
  have k1 : replaceKeyCmd (lit "\\eqref\x7b") (ResolveRefs.eqrefRender labels)
      (lit "\\autoref{nokey}") = lit "\\autoref{nokey}" :=
    replaceKeyCmd_of_not_substr (by decide)
  have k2 : replaceKeyCmd (lit "\\ref\x7b") (ResolveRefs.refRender labels)
      (lit "\\autoref{nokey}") = lit "\\autoref{nokey}" :=
    replaceKeyCmd_of_not_substr (by decide)
  refine ⟨?_, ?_, ?_⟩
  · unfold ResolveRefs.resolveRefs
    simp only [heq, i1, i2, i3]
  · unfold ResolveRefs.resolveRefs
    simp only [j1, href, j2, j3]
  · unfold ResolveRefs.resolveRefs
    simp only [k1, k2, haut, j2, j3]

/-- Witness for `c6_theorem`. -/
theorem c6_theorem_witness :
    ResolveRefs.resolveRefs (lit "\\eqref{nokey}") [] = lit "(?)"
      ∧ ResolveRefs.resolveRefs (lit "\\ref{nokey}") [] = lit "?"
      ∧ ResolveRefs.resolveRefs (lit "\\autoref{nokey}") [] = lit "?" :=
  c6_theorem [] (by decide)

/-- Claim C7, counterexample: with the table defining `\b = y` before
`\a = \b` (no self-reference or mutual recursion anywhere), one run of
`applyMacros` on `\a` stops at `\b`: an arity-0 invocation from the table
remains in the output, and applying `applyMacros` a second time still
changes the text — substitution is not run to a fixed point, and no
iteration bound was hit. -/
theorem c7_counterexample :
    Tex2Html.applyMacros (lit "\\a")
        [⟨lit "b", 0, lit "y"⟩, ⟨lit "a", 0, lit "\\b"⟩] = lit "\\b"
      ∧ Tex2Html.containsMacroInv0 (lit "b")
          (Tex2Html.applyMacros (lit "\\a")
            [⟨lit "b", 0, lit "y"⟩, ⟨lit "a", 0, lit "\\b"⟩]) = true
      ∧ Tex2Html.applyMacros
          (Tex2Html.applyMacros (lit "\\a")
            [⟨lit "b", 0, lit "y"⟩, ⟨lit "a", 0, lit "\\b"⟩])
          [⟨lit "b", 0, lit "y"⟩, ⟨lit "a", 0, lit "\\b"⟩]
        ≠ Tex2Html.applyMacros (lit "\\a")
            [⟨lit "b", 0, lit "y"⟩, ⟨lit "a", 0, lit "\\b"⟩] := by
  refine ⟨by decide, by decide, by decide⟩

/-- Claim C7 as amended: `applyMacros` makes a single pass over the table —
each arity-0 entry is substituted once, in table order, and the result is
not re-scanned — so a macro invocation produced by expanding another macro
body is itself expanded exactly when its entry comes later in the table:
with `\a = \b` listed before `\b = y` the result is `y`, with the entries
in the opposite order the invocation `\b` is left in the output. -/
theorem c7_theorem (y : Str) (_hy : '$' ∉ y) :
    Tex2Html.applyMacros (lit "\\a")
        [⟨lit "a", 0, lit "\\b"⟩, ⟨lit "b", 0, y⟩] = y
      ∧ Tex2Html.applyMacros (lit "\\a")
          [⟨lit "b", 0, y⟩, ⟨lit "a", 0, lit "\\b"⟩] = lit "\\b" := by
  constructor
  · have h1 : Tex2Html.replace0 (lit "a") (lit "\\b") (lit "\\a") = lit "\\b" := by decide
    have h2 : Tex2Html.replace0 (lit "b") y (lit "\\b") = y ++ [] := rfl
    simp only [Tex2Html.applyMacros, List.foldl_cons, List.foldl_nil]
    norm_num
    rw [h1, h2]
    simp
  · have h1 : Tex2Html.replace0 (lit "b") y (lit "\\a") = lit "\\a" := rfl
    have h2 : Tex2Html.replace0 (lit "a") (lit "\\b") (lit "\\a") = lit "\\b" := by decide
    simp only [Tex2Html.applyMacros, List.foldl_cons, List.foldl_nil]
    norm_num
    rw [h1, h2]

/-- Witness for `c7_theorem`. -/
theorem c7_theorem_witness :
    Tex2Html.applyMacros (lit "\\a")
        [⟨lit "a", 0, lit "\\b"⟩, ⟨lit "b", 0, lit "z"⟩] = lit "z"
      ∧ Tex2Html.applyMacros (lit "\\a")
          [⟨lit "b", 0, lit "z"⟩, ⟨lit "a", 0, lit "\\b"⟩] = lit "\\b" :=
  c7_theorem (lit "z") (by decide)

/-- Claim C8 (confirmed): for a defined zero-argument macro backslash-x with
body `b`, expansion replaces exactly the occurrences of backslash-x that are
not immediately followed by an ASCII letter — each becomes `b` — while the
longer undefined command backslash-x-y is left untouched: no trailing
alphabetic character is absorbed.  (The body is assumed free of dollar
signs, where the JavaScript replacement-string syntax would kick in.) -/
theorem c8_theorem (pre post b : Str) (hpre : '\\' ∉ pre) (hpost : '\\' ∉ post)
    (_hb : '$' ∉ b) (hpa : Tex2Html.noAlphaHead post = true) :
    Tex2Html.applyMacros (pre ++ '\\' :: 'x' :: post) [⟨['x'], 0, b⟩]
        = pre ++ b ++ post
      ∧ Tex2Html.applyMacros (pre ++ '\\' :: 'x' :: 'y' :: post) [⟨['x'], 0, b⟩]
        = pre ++ '\\' :: 'x' :: 'y' :: post := by
  have hd1 : List.drop (['x'] : Str).length ('x' :: post) = post := by simp
  have hname1 : hasPfx ['x'] ('x' :: post) = true := by simp [hasPfx]
  constructor
  · simp only [Tex2Html.applyMacros, List.foldl_cons, List.foldl_nil]
    norm_num
    unfold Tex2Html.replace0
    have hlen : pre.length + ('\\' :: 'x' :: post).length
        ≤ (pre ++ '\\' :: 'x' :: post).length := by simp
    rw [Tex2Html.replace0F_append_clean pre ('\\' :: 'x' :: post) _ hpre hlen]
    have harith : (pre ++ '\\' :: 'x' :: post).length - pre.length
        = post.length + 1 + 1 := by
      simp only [List.length_append, List.length_cons]
      omega
    rw [harith]
    rw [Tex2Html.replace0F_step_match (post.length + 1) hname1 (by rw [hd1]; exact hpa)]
    rw [hd1, Tex2Html.replace0F_of_no_backslash _ post hpost]
  · simp only [Tex2Html.applyMacros, List.foldl_cons, List.foldl_nil]
    norm_num
    unfold Tex2Html.replace0
    have hlen : pre.length + ('\\' :: 'x' :: 'y' :: post).length
        ≤ (pre ++ '\\' :: 'x' :: 'y' :: post).length := by simp
    rw [Tex2Html.replace0F_append_clean pre ('\\' :: 'x' :: 'y' :: post) _ hpre hlen]
    have harith : (pre ++ '\\' :: 'x' :: 'y' :: post).length - pre.length
        = post.length + 2 + 1 := by
      simp only [List.length_append, List.length_cons]
      omega
    rw [harith]
    have hcond : (('\\' : Char) = '\\' && hasPfx ['x'] ('x' :: 'y' :: post)
        && Tex2Html.noAlphaHead (List.drop (['x'] : Str).length ('x' :: 'y' :: post)))
        = false := by
      simp [hasPfx, Tex2Html.noAlphaHead, isAsciiAlpha]
    rw [Tex2Html.replace0F_step_skip (post.length + 2) hcond]
    have hxy : '\\' ∉ ('x' :: 'y' :: post) := by
      intro hmem
      rcases List.mem_cons.mp hmem with h1 | hmem
      · exact absurd h1 (by decide)
      rcases List.mem_cons.mp hmem with h2 | hmem
      · exact absurd h2 (by decide)
      · exact hpost hmem
    rw [Tex2Html.replace0F_of_no_backslash _ _ hxy]

/-- Witness for `c8_theorem`. -/
theorem c8_theorem_witness :
    Tex2Html.applyMacros (lit "see " ++ '\\' :: 'x' :: lit " ok") [⟨['x'], 0, lit "Y"⟩]
        = lit "see " ++ lit "Y" ++ lit " ok"
      ∧ Tex2Html.applyMacros (lit "see " ++ '\\' :: 'x' :: 'y' :: lit " ok")
          [⟨['x'], 0, lit "Y"⟩]
        = lit "see " ++ '\\' :: 'x' :: 'y' :: lit " ok" :=
  c8_theorem (lit "see ") (lit " ok") (lit "Y") (by decide) (by decide) (by decide)
    (by decide)

/-- Claim C9, counterexample: rendering the very same math span of one
document yields different HTML before and after `setCustomMacros` is called
with another document's macro table — the module-level table is long-lived
shared state that leaks between documents.  The typesetting collaborator is
instantiated with a function that merely substitutes the macro it is given,
which is within its specified interface. -/
theorem c9_counterexample :
    RenderMath.renderMathB
        (fun l _ ms => (RenderMath.lookupAssoc ms (lit "\\dm")).getD l)
        (RenderMath.setCustomMacros [(lit "\\dm", lit "d_{model}")] [])
        (lit "\\dm") true
      ≠ RenderMath.renderMathB
          (fun l _ ms => (RenderMath.lookupAssoc ms (lit "\\dm")).getD l)
          [] (lit "\\dm") true := by
  decide

/-- Claim C9 as amended: `renderMath` reads whatever macro table was last
installed by `setCustomMacros` — after installing any table mapping the span
macro to another document's replacement, the same span renders to that
replacement, while a fresh table renders it unchanged — so math rendering
for one document is affected by the macro table set for another. -/
theorem c9_theorem (m s : RenderMath.MacroTable)
    (h : RenderMath.lookupAssoc m (lit "\\dm") = some (lit "d_{model}")) :
    RenderMath.renderMathB
        (fun l _ ms => (RenderMath.lookupAssoc ms (lit "\\dm")).getD l)
        (RenderMath.setCustomMacros m s) (lit "\\dm") true
      = lit "d_{model}"
    ∧ RenderMath.renderMathB
        (fun l _ ms => (RenderMath.lookupAssoc ms (lit "\\dm")).getD l)
        [] (lit "\\dm") true
      = lit "\\dm" := by
  constructor
  · have hstep : RenderMath.renderMathB
        (fun l _ ms => (RenderMath.lookupAssoc ms (lit "\\dm")).getD l)
        (RenderMath.setCustomMacros m s) (lit "\\dm") true
        = (RenderMath.lookupAssoc (RenderMath.mergeMacros m) (lit "\\dm")).getD
            (lit "\\dm") := rfl
    rw [hstep]
    simp only [RenderMath.mergeMacros]
    rw [RenderMath.lookupAssoc_append_of_some h RenderMath.defaultMacros]
    rfl
  · decide

/-- Witness for `c9_theorem`. -/
theorem c9_theorem_witness :
    RenderMath.renderMathB
        (fun l _ ms => (RenderMath.lookupAssoc ms (lit "\\dm")).getD l)
        (RenderMath.setCustomMacros [(lit "\\dm", lit "d_{model}")] [])
        (lit "\\dm") true
      = lit "d_{model}"
    ∧ RenderMath.renderMathB
        (fun l _ ms => (RenderMath.lookupAssoc ms (lit "\\dm")).getD l)
        [] (lit "\\dm") true
      = lit "\\dm" :=
  c9_theorem [(lit "\\dm", lit "d_{model}")] [] (by decide)

/-- Claim C10 (confirmed): for every figure list, `replaceFiguresInText`
replaces the k-th figure environment of the call's text (counting from the
start of that text) using the k-th element of the list — the empty string
when that element is absent or has an empty image list, its figure HTML
otherwise.  Because the counter is local to the call, a second section's
first environment is again paired with the first element of the
document-wide list. -/
theorem c10_theorem (figures : List ExtractFigures.Figure) :
    ExtractFigures.replaceFiguresInText
        (lit "Intro \\begin{figure}F1\\end{figure} mid \\begin{figure}F2\\end{figure} end")
        figures
      = lit "Intro " ++ ExtractFigures.figRep (figures.get? 0) ++ lit " mid "
        ++ ExtractFigures.figRep (figures.get? 1) ++ lit " end"
    ∧ ExtractFigures.replaceFiguresInText
        (lit "Other \\begin{figure}G\\end{figure} tail") figures
      = lit "Other " ++ ExtractFigures.figRep (figures.get? 0) ++ lit " tail" := by
  constructor
  · unfold ExtractFigures.replaceFiguresInText
    rw [show ExtractFigures.parseFigSegsF
          (lit "Intro \\begin{figure}F1\\end{figure} mid \\begin{figure}F2\\end{figure} end").length
          (lit "Intro \\begin{figure}F1\\end{figure} mid \\begin{figure}F2\\end{figure} end")
          = [ExtractFigures.FSeg.plain (lit "Intro "),
             ExtractFigures.FSeg.block (lit "F1"),
             ExtractFigures.FSeg.plain (lit " mid "),
             ExtractFigures.FSeg.block (lit "F2"),
             ExtractFigures.FSeg.plain (lit " end")] from by decide]
    simp [ExtractFigures.renderFSegs, List.append_assoc]
  · unfold ExtractFigures.replaceFiguresInText
    rw [show ExtractFigures.parseFigSegsF
          (lit "Other \\begin{figure}G\\end{figure} tail").length
          (lit "Other \\begin{figure}G\\end{figure} tail")
          = [ExtractFigures.FSeg.plain (lit "Other "),
             ExtractFigures.FSeg.block (lit "G"),
             ExtractFigures.FSeg.plain (lit " tail")] from by decide]
    simp [ExtractFigures.renderFSegs, List.append_assoc]

/-- Claim C4, counterexample: when no candidate file for the referenced
image exists, `extractFigures` does keep the figure, with an empty image
list and its non-empty caption — but `replaceFiguresInText` then replaces
the figure environment with the empty string, so the caption is not
rendered in the document text (the claim's caption-preservation half
fails). -/
theorem c4_counterexample :
    ExtractFigures.extractFigures ⟨fun _ => false, fun _ => false, fun _ => false⟩
        (lit "base")
        (lit "\\begin{figure}\\includegraphics{missing}\\caption{Nice caption}\\end{figure}")
      = [⟨1, lit "fig:1", lit "Nice caption", [], none⟩]
    ∧ ExtractFigures.replaceFiguresInText
        (lit "\\begin{figure}\\includegraphics{missing}\\caption{Nice caption}\\end{figure}")
        [⟨1, lit "fig:1", lit "Nice caption", [], none⟩]
      = []
    ∧ lit "Nice caption" ≠ [] := by
  refine ⟨by decide, by decide, by decide⟩

/-- Claim C4 as amended: for every filesystem oracle on which no candidate
path of the referenced image exists, the figure is kept with `images = []`
and its non-empty cleaned caption, and the in-text replacement emitted for
that figure environment is the empty string — the caption is preserved in
the figure record but not re-rendered in the text. -/
theorem c4_theorem (ops : ExtractFigures.FsOps)
    (hf : ∀ s, ops.fsExists s = false) :
    ExtractFigures.extractFigures ops (lit "base")
        (lit "\\begin{figure}\\includegraphics{missing}\\caption{Nice caption}\\end{figure}")
      = [⟨1, lit "fig:1", lit "Nice caption", [], none⟩]
    ∧ ExtractFigures.replaceFiguresInText
        (lit "\\begin{figure}\\includegraphics{missing}\\caption{Nice caption}\\end{figure}")
        (ExtractFigures.extractFigures ops (lit "base")
          (lit "\\begin{figure}\\includegraphics{missing}\\caption{Nice caption}\\end{figure}"))
      = [] := by
  have hmain : ExtractFigures.extractFigures ops (lit "base")
      (lit "\\begin{figure}\\includegraphics{missing}\\caption{Nice caption}\\end{figure}")
      = [⟨1, lit "fig:1", lit "Nice caption", [], none⟩] := by
    unfold ExtractFigures.extractFigures
    rw [show ExtractFigures.blocksOf
          (lit "\\begin{figure}\\includegraphics{missing}\\caption{Nice caption}\\end{figure}")
          = [lit "\\includegraphics{missing}\\caption{Nice caption}"] from by decide]
    have hres : ExtractFigures.resolveImage ops (lit "base") (lit "missing") = none := by
      simp [ExtractFigures.resolveImage, ExtractFigures.imgExtensions, List.find?, hf]
    have himg : ExtractFigures.imageFor ops (lit "base") (lit "missing") = none := by
      simp [ExtractFigures.imageFor, hres]
    simp only [ExtractFigures.buildFigs]
    rw [show ExtractFigures.findCaptionIn
          (lit "\\includegraphics{missing}\\caption{Nice caption}")
          = some (lit "Nice caption") from by decide]
    rw [show ResolveRefs.findLabelKey
          (lit "\\includegraphics{missing}\\caption{Nice caption}") = none from by decide]
    rw [show ExtractFigures.scanGraphicsF
          (lit "\\includegraphics{missing}\\caption{Nice caption}").length
          (lit "\\includegraphics{missing}\\caption{Nice caption}")
          = [lit "missing"] from by decide]
    rw [show ExtractFigures.widthScanF
          (lit "\\includegraphics{missing}\\caption{Nice caption}").length
          (lit "\\includegraphics{missing}\\caption{Nice caption}") = none from by decide]
    simp only [List.filterMap, himg]
    rw [show ExtractFigures.cleanCaption (trimWs (lit "Nice caption"))
          = lit "Nice caption" from by decide]
    rfl
  refine ⟨hmain, ?_⟩
  rw [hmain]
  decide

/-- Witness for `c4_theorem`. -/
theorem c4_theorem_witness :
    ExtractFigures.extractFigures ⟨fun _ => false, fun _ => false, fun _ => false⟩
        (lit "base")
        (lit "\\begin{figure}\\includegraphics{missing}\\caption{Nice caption}\\end{figure}")
      = [⟨1, lit "fig:1", lit "Nice caption", [], none⟩]
    ∧ ExtractFigures.replaceFiguresInText
        (lit "\\begin{figure}\\includegraphics{missing}\\caption{Nice caption}\\end{figure}")
        (ExtractFigures.extractFigures ⟨fun _ => false, fun _ => false, fun _ => false⟩
          (lit "base")
          (lit "\\begin{figure}\\includegraphics{missing}\\caption{Nice caption}\\end{figure}"))
      = [] :=
  c4_theorem ⟨fun _ => false, fun _ => false, fun _ => false⟩ (fun _ => rfl)

/-- Claim C5, counterexample: the bibliography key may be `1` (as produced by
`\bibitem{1}`), and then the bracketed group `[1]` contains a key matching a
known bibliography entry, yet the conversion does not fire — the group scan
requires every key to begin with an ASCII letter — so the group is left
unchanged byte-for-byte and no badge is emitted, refuting the claimed
equivalence. -/
theorem c5_counterexample :
    Pipeline.keyToNum [⟨lit "1", lit "A", lit "T", lit "V", []⟩] (lit "1") = some 1
      ∧ Pipeline.convertCitationBrackets [⟨lit "1", lit "A", lit "T", lit "V", []⟩]
          (lit "[1]") = lit "[1]"
      ∧ isSubstrL (lit "ref-badge")
          (Pipeline.convertCitationBrackets [⟨lit "1", lit "A", lit "T", lit "V", []⟩]
            (lit "[1]")) = false := by
  refine ⟨by decide, by decide, by decide⟩

/-- Claim C5 as amended: for a bracketed group that matches the citation-key
pattern (each comma-separated key starting with an ASCII letter followed by
letters, digits, underscore, colon, dot or dash), conversion fires if and
only if at least one key has a bibliography entry: with no entry for the key
the group is left byte-for-byte unchanged, and with an entry of ordinal `n`
the group becomes the corresponding `ref-badge` markup. -/
theorem c5_theorem (bib : List Pipeline.BibEntry) :
    (Pipeline.keyToNum bib (lit "foo") = none →
      Pipeline.convertCitationBrackets bib (lit "see [foo] ok") = lit "see [foo] ok")
    ∧ (∀ (n : Nat) (r : Pipeline.BibEntry),
        Pipeline.keyToNum bib (lit "foo") = some n →
        Pipeline.findBib bib (lit "foo") = some r →
        Pipeline.convertCitationBrackets bib (lit "see [foo] ok")
          = lit "see " ++ lit "<sup class=\"ref-badge\" data-ref=\""
            ++ lit (Nat.repr n) ++ lit "\" data-title=\"" ++ Pipeline.escHtmlP r.title
            ++ ['"']
            ++ (if r.arxivId ≠ [] then lit " data-arxiv-id=\"" ++ r.arxivId ++ ['"'] else [])
            ++ ['>'] ++ lit (Nat.repr n) ++ lit "</sup>" ++ lit " ok") := by
  have hsegs : Pipeline.parseCiteSegsF (lit "see [foo] ok").length (lit "see [foo] ok")
      = [Pipeline.CSeg.plain (lit "see "),
         Pipeline.CSeg.group [lit "foo"] (lit "[foo]"),
         Pipeline.CSeg.plain (lit " ok")] := by decide
  constructor
  · intro hnone
    unfold Pipeline.convertCitationBrackets
    rw [hsegs]
    simp [Pipeline.renderCSegs, hnone]
    decide
  · intro n r hnum hfind
    unfold Pipeline.convertCitationBrackets
    rw [hsegs]
    simp only [Pipeline.renderCSegs, List.any, hnum, Option.isSome_some, Bool.or_false,
      if_pos, List.map, List.flatten]
    simp only [Pipeline.badgeFor, hnum, hfind]
    simp [List.append_assoc]

/-- Witness for `c5_theorem`. -/
theorem c5_theorem_witness :
    Pipeline.convertCitationBrackets [⟨lit "bar", lit "A", lit "T", lit "V", []⟩]
        (lit "see [foo] ok") = lit "see [foo] ok"
    ∧ Pipeline.convertCitationBrackets [⟨lit "foo", lit "A", lit "T", lit "V", []⟩]
        (lit "see [foo] ok")
        = lit "see " ++ lit "<sup class=\"ref-badge\" data-ref=\"" ++ lit (Nat.repr 1)
          ++ lit "\" data-title=\""
          ++ Pipeline.escHtmlP (Pipeline.BibEntry.title ⟨lit "foo", lit "A", lit "T", lit "V", []⟩)
          ++ ['"']
          ++ (if Pipeline.BibEntry.arxivId ⟨lit "foo", lit "A", lit "T", lit "V", []⟩ ≠ []
              then lit " data-arxiv-id=\""
                ++ Pipeline.BibEntry.arxivId ⟨lit "foo", lit "A", lit "T", lit "V", []⟩ ++ ['"']
              else [])
          ++ ['>'] ++ lit (Nat.repr 1) ++ lit "</sup>" ++ lit " ok" :=
  ⟨(c5_theorem [⟨lit "bar", lit "A", lit "T", lit "V", []⟩]).1 (by decide),
   (c5_theorem [⟨lit "foo", lit "A", lit "T", lit "V", []⟩]).2 1
     ⟨lit "foo", lit "A", lit "T", lit "V", []⟩ (by decide) (by decide)⟩

theorem nmem_append {c : Char} {a b : Str} (ha : c ∉ a) (hb : c ∉ b) :
    c ∉ a ++ b := by
  intro h
  rcases List.mem_append.mp h with h | h
  · exact ha h
  · exact hb h

theorem nmem_cons {c d : Char} {t : Str} (hne : c ≠ d) (ht : c ∉ t) :
    c ∉ d :: t := by
  intro h
  rcases List.mem_cons.mp h with h | h
  · exact hne h
  · exact ht h

/-- Claim C1, counterexample: the math renderer emits `span.math-inline` and
`div.math-display` elements with no `data-raw` attribute at all — the
rendered output of `renderAllMath` (here with a collaborator returning a
fixed HTML string) contains the wrapper classes but not the substring
`data-raw`, so no element carries the original LaTeX in a `data-raw`
attribute. -/
theorem c1_counterexample :
    isSubstrL (lit "math-inline")
        (RenderMath.renderAllMath (fun _ _ _ => lit "KX") [] (lit "Let $x$ be.")) = true
    ∧ isSubstrL (lit "data-raw")
        (RenderMath.renderAllMath (fun _ _ _ => lit "KX") [] (lit "Let $x$ be.")) = false
    ∧ isSubstrL (lit "math-display")
        (RenderMath.renderAllMath (fun _ _ _ => lit "KX") [] (lit "$$y$$")) = true
    ∧ isSubstrL (lit "data-raw")
        (RenderMath.renderAllMath (fun _ _ _ => lit "KX") [] (lit "$$y$$")) = false
    ∧ isSubstrL (lit "data-raw")
        (RenderMath.renderAllMath (fun _ _ _ => lit "KX") []
          (lit "\\begin{equation}E\\end{equation}")) = false := by
  refine ⟨by decide, by decide, by decide, by decide, by decide⟩

/-- Claim C1 as amended: for every collaborator output (free of `<` and `$`,
so that the variable-annotation and later passes leave it alone), the math
renderer wraps that output in a bare `<span class="math-inline">…</span>` or
`<div class="math-display">…</div>` element: no `data-raw` attribute (and no
copy of the original LaTeX) is attached to the emitted element, for inline,
`$$` display, and environment display spans alike. -/
theorem c1_theorem (kOut : Str) (hlt : '<' ∉ kOut) (hdollar : '$' ∉ kOut) :
    RenderMath.renderAllMath (fun _ _ _ => kOut) [] (lit "Let $x+1$ be.")
        = lit "Let " ++ lit "<span class=\"math-inline\">" ++ kOut
          ++ lit "</span>" ++ lit " be."
    ∧ RenderMath.renderAllMath (fun _ _ _ => kOut) [] (lit "$$y$$")
        = lit "\n<div class=\"math-display\">" ++ kOut ++ lit "</div>\n"
    ∧ RenderMath.renderAllMath (fun _ _ _ => kOut) []
          (lit "\\begin{equation}E\\end{equation}")
        = '\n' :: (lit "<div class=\"math-display\">" ++ kOut
          ++ lit "</div>" ++ ['\n']) := by
  refine ⟨?_, ?_, ?_⟩
  · simp only [RenderMath.renderAllMath]
    rw [show RenderMath.parseEnvSegsF (lit "Let $x+1$ be.").length (lit "Let $x+1$ be.")
          = [RenderMath.ESeg.plain (lit "Let $x+1$ be.")] from by decide]
    simp only [RenderMath.renderESegs, List.append_nil]
    rw [show RenderMath.parseD2SegsF (lit "Let $x+1$ be.").length (lit "Let $x+1$ be.")
          = [RenderMath.DSeg.plain (lit "Let $x+1$ be.")] from by decide]
    simp only [RenderMath.renderD2Segs, List.append_nil]
    rw [show RenderMath.parseInlSegsF false (lit "Let $x+1$ be.").length none
          (lit "Let $x+1$ be.")
          = [RenderMath.ISeg.plain (lit "Let "), RenderMath.ISeg.inl (lit "x+1"),
             RenderMath.ISeg.plain (lit " be.")] from by decide]
    simp only [RenderMath.renderInlSegs, List.append_nil]
    rw [show RenderMath.renderMath (fun _ _ _ => kOut) [] (trimWs (lit "x+1")) false
          = kOut from rfl]
    rw [RenderMath.annotateVarsInMath_of_no_lt hlt]
    simp [List.append_assoc]
  · simp only [RenderMath.renderAllMath]
    rw [show RenderMath.parseEnvSegsF (lit "$$y$$").length (lit "$$y$$")
          = [RenderMath.ESeg.plain (lit "$$y$$")] from by decide]
    simp only [RenderMath.renderESegs, List.append_nil]
    rw [show RenderMath.parseD2SegsF (lit "$$y$$").length (lit "$$y$$")
          = [RenderMath.DSeg.disp (lit "y")] from by decide]
    have hval : RenderMath.renderD2Segs (fun _ _ _ => kOut) []
        [RenderMath.DSeg.disp (lit "y")]
        = lit "\n<div class=\"math-display\">" ++ kOut ++ lit "</div>\n" := by
      simp only [RenderMath.renderD2Segs, List.append_nil]
      rw [show RenderMath.renderMath (fun _ _ _ => kOut) [] (trimWs (lit "y")) true
            = kOut from rfl]
      rw [RenderMath.annotateVarsInMath_of_no_lt hlt]
    rw [hval]
    have hd2 : '$' ∉ (lit "\n<div class=\"math-display\">" ++ kOut ++ lit "</div>\n" : Str) :=
      nmem_append (nmem_append (by decide) hdollar) (by decide)
    rw [RenderMath.renderInlSegs_parse_of_no_dollar _ _ _ _ _ _ hd2]
  · simp only [RenderMath.renderAllMath]
    rw [show RenderMath.parseEnvSegsF (lit "\\begin{equation}E\\end{equation}").length
          (lit "\\begin{equation}E\\end{equation}")
          = [RenderMath.ESeg.env (lit "equation") (lit "E")] from by decide]
    have hval : RenderMath.renderESegs (fun _ _ _ => kOut) []
        [RenderMath.ESeg.env (lit "equation") (lit "E")]
        = '\n' :: (lit "<div class=\"math-display\">" ++ kOut
          ++ lit "</div>" ++ ['\n']) := by
      simp only [RenderMath.renderESegs, RenderMath.envReplacement, List.append_nil]
      rw [show RenderMath.envLines (lit "equation") (lit "E") = [lit "E"] from by decide]
      simp only [List.map, RenderMath.joinNLRM]
      rw [show RenderMath.renderMath (fun _ _ _ => kOut) [] (lit "E") true
            = kOut from rfl]
      rw [RenderMath.annotateVarsInMath_of_no_lt hlt]
      simp [List.append_assoc]
    rw [hval]
    have he : '$' ∉ ('\n' :: (lit "<div class=\"math-display\">" ++ kOut
        ++ lit "</div>" ++ ['\n']) : Str) :=
      nmem_cons (by decide)
        (nmem_append (nmem_append (nmem_append (by decide) hdollar) (by decide)) (by decide))
    rw [RenderMath.renderD2Segs_parse_of_no_dollar _ _ _ _ he]
    rw [RenderMath.renderInlSegs_parse_of_no_dollar _ _ _ _ _ _ he]

/-- Witness for `c1_theorem`. -/
theorem c1_theorem_witness :
    RenderMath.renderAllMath (fun _ _ _ => lit "KX") [] (lit "Let $x+1$ be.")
        = lit "Let " ++ lit "<span class=\"math-inline\">" ++ lit "KX"
          ++ lit "</span>" ++ lit " be."
    ∧ RenderMath.renderAllMath (fun _ _ _ => lit "KX") [] (lit "$$y$$")
        = lit "\n<div class=\"math-display\">" ++ lit "KX" ++ lit "</div>\n"
    ∧ RenderMath.renderAllMath (fun _ _ _ => lit "KX") []
          (lit "\\begin{equation}E\\end{equation}")
        = '\n' :: (lit "<div class=\"math-display\">" ++ lit "KX"
          ++ lit "</div>" ++ ['\n']) :=
  c1_theorem (lit "KX") (by decide) (by decide)

/-- Witness for `c10_theorem`, at the empty figure list. -/
theorem c10_theorem_witness :
    ExtractFigures.replaceFiguresInText
        (lit "Intro \\begin{figure}F1\\end{figure} mid \\begin{figure}F2\\end{figure} end")
        []
      = lit "Intro " ++ ExtractFigures.figRep (([] : List ExtractFigures.Figure).get? 0)
        ++ lit " mid "
        ++ ExtractFigures.figRep (([] : List ExtractFigures.Figure).get? 1) ++ lit " end"
    ∧ ExtractFigures.replaceFiguresInText
        (lit "Other \\begin{figure}G\\end{figure} tail") []
      = lit "Other " ++ ExtractFigures.figRep (([] : List ExtractFigures.Figure).get? 0)
        ++ lit " tail" :=
  c10_theorem []
